/-
Verification of the ironfish RPC client multiplexer and its TCP transport.

The development shallowly embeds the two source files:
  * `rpcClient` (the abstract `IronfishRpcClient`: pending-request table,
    request issuing, timeouts, disconnect handling, envelope handlers), and
  * `tcpClient.ts` (the concrete `IronfishTcpClient`: socket connect
    classification, delimiter framing, per-read decoding, close handling).

JavaScript runtime pieces that the sources consume as black boxes
(JSON.stringify / JSON.parse, the yup schema validators, the Stream and
Response helper classes, the error class hierarchy) are modelled from the
specification, as marked on each definition.
-/
import Mathlib

namespace Ironfish

/-- A JSON value as produced by `JSON.parse`.  Numbers are restricted to
integers (the message ids, statuses and payloads exercised by the protocol
are integral; floating point is out of scope of the embedding). -/
inductive Json where
  | null : Json
  | bool : Bool → Json
  | num : Int → Json
  | str : String → Json
  | arr : List Json → Json
  | obj : List (String × Json) → Json

abbrev Chars := List Char

/-- Association-list lookup, first match wins (models `Map.get`). -/
def alookup {κ α : Type} [DecidableEq κ] (k : κ) : List (κ × α) → Option α
  | [] => none
  | p :: l => if p.1 = k then some p.2 else alookup k l

/-- Remove every binding of a key (models `Map.delete`). -/
def aerase {κ α : Type} [DecidableEq κ] (k : κ) (l : List (κ × α)) : List (κ × α) :=
  l.filter (fun p => p.1 ≠ k)

/-- Insert or replace a binding; a fresh key is appended, preserving the
insertion order that `Map` iteration exposes (models `Map.set`). -/
def aset {κ α : Type} [DecidableEq κ] (k : κ) (v : α) (l : List (κ × α)) : List (κ × α) :=
  aerase k l ++ [(k, v)]

/-! ## JSON serialization.
Modelled from the spec: `JSON.stringify` is a runtime black box for the
sources ("parse-or-fail black boxes").  We emit the canonical compact form:
no insignificant whitespace, integers in decimal, strings quoted with the
two structural escapes.  Control characters inside strings are emitted
literally (real `JSON.stringify` escapes them), so wire-level statements
assume payload strings free of the delimiter character. -/

/-- Escape one character of a JSON string body. -/
def escChar (c : Char) : Chars :=
  if c = '"' then ['\\', '"']
  else if c = '\\' then ['\\', '\\']
  else [c]

/-- Escape a whole string body. -/
def escStr (s : Chars) : Chars := s.foldr (fun c acc => escChar c ++ acc) []

/-- The decimal digit characters. -/
def digitChar : Nat → Char
  | 0 => '0' | 1 => '1' | 2 => '2' | 3 => '3' | 4 => '4'
  | 5 => '5' | 6 => '6' | 7 => '7' | 8 => '8' | _ => '9'

/-- Digits of `n`, most significant first (fuelled; `f ≥ n` suffices). -/
def natCharsAux : Nat → Nat → Chars
  | 0, _ => []
  | f + 1, n => if n = 0 then [] else natCharsAux f (n / 10) ++ [digitChar (n % 10)]

/-- Decimal representation of a natural number. -/
def natChars (n : Nat) : Chars :=
  if n = 0 then ['0'] else natCharsAux n n

/-- Decimal representation of an integer. -/
def intChars (n : Int) : Chars :=
  if n < 0 then '-' :: natChars n.natAbs else natChars n.toNat

mutual

/-- Serialize a JSON value to characters. -/
def jsonChars : Json → Chars
  | .null => 'n' :: 'u' :: 'l' :: 'l' :: []
  | .bool true => 't' :: 'r' :: 'u' :: 'e' :: []
  | .bool false => 'f' :: 'a' :: 'l' :: 's' :: 'e' :: []
  | .num n => intChars n
  | .str s => '"' :: (escStr s.data ++ ['"'])
  | .arr xs => '[' :: (arrChars xs ++ [']'])
  | .obj fs => '{' :: (objChars fs ++ ['}'])

/-- Serialize the comma-separated elements of a JSON array. -/
def arrChars : List Json → Chars
  | [] => []
  | [x] => jsonChars x
  | x :: y :: t => jsonChars x ++ ',' :: arrChars (y :: t)

/-- Serialize the comma-separated fields of a JSON object. -/
def objChars : List (String × Json) → Chars
  | [] => []
  | [(k, v)] => '"' :: (escStr k.data ++ '"' :: ':' :: jsonChars v)
  | (k, v) :: g :: t =>
    ('"' :: (escStr k.data ++ '"' :: ':' :: jsonChars v)) ++ ',' :: objChars (g :: t)

end

/-! ## JSON parsing.
Modelled from the spec: `JSON.parse` is a runtime black box for the sources.
Recursive descent over the character list, fuelled for termination; the
fuel passed by `jsonParse` is generous enough for every serialized value
(`parseV_jsonChars` below). -/

mutual

/-- String body: consume until the closing quote, undoing the two escapes. -/
def parseStrBody : Chars → Option (Chars × Chars)
  | [] => none
  | c :: r =>
    if c = '"' then some ([], r)
    else if c = '\\' then parseStrEsc r
    else (parseStrBody r).map (fun p => (c :: p.1, p.2))

/-- The character after a backslash: only the two structural escapes. -/
def parseStrEsc : Chars → Option (Chars × Chars)
  | [] => none
  | c2 :: r2 =>
    if c2 = '"' ∨ c2 = '\\' then (parseStrBody r2).map (fun p => (c2 :: p.1, p.2))
    else none

end

/-- Numeric value of a digit character. -/
def digitVal (c : Char) : Nat := c.toNat - 48

/-- Value of a non-empty run of decimal digits (most significant first). -/
def digitsVal (ds : Chars) : Nat := ds.foldl (fun a c => 10 * a + digitVal c) 0

/-- Split off the longest prefix of decimal digits. -/
def takeDigits : Chars → Chars × Chars
  | [] => ([], [])
  | c :: r =>
    if c.isDigit then ((takeDigits r).1.cons c, (takeDigits r).2) else ([], c :: r)

/-- Consume a non-empty run of digits, returning its value. -/
def parseDigitsNE (cs : Chars) : Option (Nat × Chars) :=
  let p := takeDigits cs
  if p.1.isEmpty then none else some (digitsVal p.1, p.2)

/-- Literal prefix matcher. -/
def expectLit : Chars → Chars → Option Chars
  | [], cs => some cs
  | l :: ls, c :: cs => if c = l then expectLit ls cs else none
  | _ :: _, [] => none

mutual

/-- Parse one JSON value. -/
def parseV : Nat → Chars → Option (Json × Chars)
  | 0, _ => none
  | _ + 1, [] => none
  | f + 1, c :: rest =>
    if c.isDigit then
      (parseDigitsNE (c :: rest)).map (fun p => (.num (p.1 : Int), p.2))
    else if c = '-' then
      (parseDigitsNE rest).map (fun p => (.num (-(p.1 : Int)), p.2))
    else if c = '[' then
      if rest.head? = some ']' then some (.arr [], rest.tail)
      else (parseElems f rest).map (fun p => (.arr p.1, p.2))
    else if c = '{' then
      if rest.head? = some '}' then some (.obj [], rest.tail)
      else (parseFields f rest).map (fun p => (.obj p.1, p.2))
    else if c = '"' then
      (parseStrBody rest).map (fun p => (.str (String.mk p.1), p.2))
    else if c = 'n' then
      (expectLit ['u', 'l', 'l'] rest).map (fun r => (.null, r))
    else if c = 't' then
      (expectLit ['r', 'u', 'e'] rest).map (fun r => (.bool true, r))
    else if c = 'f' then
      (expectLit ['a', 'l', 's', 'e'] rest).map (fun r => (.bool false, r))
    else none

/-- Parse the elements of a non-empty array body up to the closing bracket. -/
def parseElems : Nat → Chars → Option (List Json × Chars)
  | 0, _ => none
  | f + 1, cs =>
    match parseV f cs with
    | none => none
    | some (v, r) =>
      if r.head? = some ',' then (parseElems f r.tail).map (fun p => (v :: p.1, p.2))
      else if r.head? = some ']' then some ([v], r.tail)
      else none

/-- Parse the fields of a non-empty object body up to the closing brace. -/
def parseFields : Nat → Chars → Option (List (String × Json) × Chars)
  | 0, _ => none
  | f + 1, cs =>
    match cs with
    | [] => none
    | c :: r0 =>
      if c = '"' then
        match parseStrBody r0 with
        | none => none
        | some (k, r1) =>
          if r1.head? = some ':' then
            match parseV f r1.tail with
            | none => none
            | some (v, r2) =>
              if r2.head? = some ',' then
                (parseFields f r2.tail).map (fun p => ((String.mk k, v) :: p.1, p.2))
              else if r2.head? = some '}' then some ([(String.mk k, v)], r2.tail)
              else none
          else none
      else none

end

/-- JavaScript whitespace characters relevant to `trim`. -/
def isJsWs (c : Char) : Bool :=
  c = '\x0c' ∨ c = '\x0b' ∨ c = ' ' ∨ c = '\t' ∨ c = '\n' ∨ c = '\r'

/-- Parse a complete JSON document (trailing whitespace tolerated). -/
def jsonParse (cs : Chars) : Option Json :=
  match parseV (2 * cs.length + 2) cs with
  | some (v, r) => if r.all isJsWs then some v else none
  | none => none

/-! ## Round-trip: the serializer and the parser are mutually inverse. -/

/-- Whether a character list starts with a decimal digit. -/
def headDigit : Chars → Bool
  | [] => false
  | c :: _ => c.isDigit

theorem strEta (s : String) : String.mk s.data = s := by
  cases s
  rfl

theorem parseStrBody_escStr : ∀ (s rest : Chars),
    parseStrBody (escStr s ++ '"' :: rest) = some (s, rest) := by
  intro s
  induction s with
  | nil => intro rest; simp [escStr, parseStrBody]
  | cons c t ih =>
    intro rest
    show parseStrBody ((escChar c ++ escStr t) ++ '"' :: rest) = _
    by_cases h1 : c = '"'
    · subst h1
      simp [escChar, parseStrBody, parseStrEsc, ih rest]
    · by_cases h2 : c = '\\'
      · subst h2
        simp [escChar, parseStrBody, parseStrEsc, ih rest]
      · have hesc : escChar c = [c] := by simp [escChar, h1, h2]
        rw [hesc]
        have heq : ([c] ++ escStr t) ++ '"' :: rest = c :: (escStr t ++ '"' :: rest) := by simp
        rw [heq]
        simp only [parseStrBody]
        rw [if_neg h1, if_neg h2]
        rw [ih rest]
        rfl

theorem digitVal_digitChar {d : Nat} (h : d < 10) : digitVal (digitChar d) = d := by
  interval_cases d <;> decide

theorem isDigit_digitChar {d : Nat} (h : d < 10) : (digitChar d).isDigit = true := by
  interval_cases d <;> decide

theorem digitsVal_append_digit (xs : Chars) (c : Char) :
    digitsVal (xs ++ [c]) = 10 * digitsVal xs + digitVal c := by
  unfold digitsVal
  rw [List.foldl_append]
  rfl

theorem digitsVal_natCharsAux : ∀ f n, n ≤ f → digitsVal (natCharsAux f n) = n := by
  intro f
  induction f with
  | zero =>
    intro n h
    have h0 : n = 0 := by omega
    subst h0
    rfl
  | succ f ih =>
    intro n h
    by_cases h0 : n = 0
    · subst h0
      simp [natCharsAux, digitsVal]
    · simp only [natCharsAux, if_neg h0]
      rw [digitsVal_append_digit, ih (n / 10) (by omega)]
      rw [digitVal_digitChar (Nat.mod_lt _ (by norm_num))]
      omega

theorem natCharsAux_digit : ∀ f n c, c ∈ natCharsAux f n → c.isDigit = true := by
  intro f
  induction f with
  | zero =>
    intro n c hc
    simp [natCharsAux] at hc
  | succ f ih =>
    intro n c hc
    by_cases h0 : n = 0
    · rw [natCharsAux, if_pos h0] at hc
      simp at hc
    · rw [natCharsAux, if_neg h0] at hc
      rcases List.mem_append.mp hc with hc | hc
      · exact ih _ _ hc
      · rw [List.mem_singleton] at hc
        subst hc
        exact isDigit_digitChar (Nat.mod_lt _ (by norm_num))

theorem digitsVal_natChars (n : Nat) : digitsVal (natChars n) = n := by
  by_cases h : n = 0
  · subst h; decide
  · unfold natChars
    rw [if_neg h]
    exact digitsVal_natCharsAux n n le_rfl

theorem natChars_digit (n : Nat) : ∀ c ∈ natChars n, c.isDigit = true := by
  intro c hc
  unfold natChars at hc
  by_cases h : n = 0
  · rw [if_pos h] at hc
    simp at hc
    subst hc
    decide
  · rw [if_neg h] at hc
    exact natCharsAux_digit n n c hc

theorem natChars_ne_nil (n : Nat) : natChars n ≠ [] := by
  unfold natChars
  by_cases h : n = 0
  · rw [if_pos h]; simp
  · rw [if_neg h]
    cases hn : n with
    | zero => exact absurd hn h
    | succ m =>
      subst hn
      simp [natCharsAux]

theorem takeDigits_append : ∀ (xs ys : Chars), (∀ c ∈ xs, c.isDigit = true) →
    headDigit ys = false → takeDigits (xs ++ ys) = (xs, ys) := by
  intro xs
  induction xs with
  | nil =>
    intro ys _ hy
    cases ys with
    | nil => rfl
    | cons c r =>
      simp only [List.nil_append, takeDigits]
      rw [if_neg]
      simp [headDigit] at hy
      simp [hy]
  | cons c t ih =>
    intro ys hx hy
    simp only [List.cons_append, takeDigits, List.append_eq]
    rw [if_pos (hx c (by simp))]
    rw [ih ys (fun x hx2 => hx x (by simp [hx2])) hy]

theorem parseDigitsNE_append (n : Nat) (rest : Chars) (hr : headDigit rest = false) :
    parseDigitsNE (natChars n ++ rest) = some (n, rest) := by
  unfold parseDigitsNE
  rw [takeDigits_append _ _ (natChars_digit n) hr]
  simp only [List.isEmpty_iff]
  rw [if_neg (natChars_ne_nil n)]
  rw [digitsVal_natChars]

mutual

/-- Parser fuel sufficient for a serialized value. -/
def jfuel : Json → Nat
  | .arr xs => 1 + efuel xs
  | .obj fs => 1 + ffuel fs
  | _ => 1

/-- Parser fuel sufficient for serialized array elements. -/
def efuel : List Json → Nat
  | [] => 1
  | x :: t => 1 + jfuel x + efuel t

/-- Parser fuel sufficient for serialized object fields. -/
def ffuel : List (String × Json) → Nat
  | [] => 1
  | p :: t => 1 + jfuel p.2 + ffuel t

end

theorem jfuel_pos (v : Json) : 1 ≤ jfuel v := by
  cases v <;> simp only [jfuel] <;> omega

theorem efuel_pos (xs : List Json) : 1 ≤ efuel xs := by
  cases xs <;> simp only [efuel] <;> omega

theorem ffuel_pos (fs : List (String × Json)) : 1 ≤ ffuel fs := by
  cases fs <;> simp only [ffuel] <;> omega

/-- Characters that can begin a serialized JSON value. -/
def jsonStart (c : Char) : Bool :=
  c.isDigit ∨ c = '-' ∨ c = '[' ∨ c = '{' ∨ c = '"' ∨ c = 'n' ∨ c = 't' ∨ c = 'f'

theorem jsonStart_ne_close {c : Char} (h : jsonStart c = true) : c ≠ ']' ∧ c ≠ '}' := by
  refine ⟨fun he => ?_, fun he => ?_⟩ <;> subst he <;> revert h <;> decide

theorem natChars_shape (n : Nat) : ∃ c cs, natChars n = c :: cs ∧ c.isDigit = true := by
  cases h : natChars n with
  | nil => exact absurd h (natChars_ne_nil n)
  | cons c cs =>
    exact ⟨c, cs, rfl, natChars_digit n c (by rw [h]; exact List.mem_cons_self c cs)⟩

theorem jsonChars_shape (v : Json) : ∃ c cs, jsonChars v = c :: cs ∧ jsonStart c = true := by
  cases v with
  | null => exact ⟨'n', _, rfl, by decide⟩
  | bool b =>
    cases b
    · exact ⟨'f', _, rfl, by decide⟩
    · exact ⟨'t', _, rfl, by decide⟩
  | num n =>
    show ∃ c cs, intChars n = c :: cs ∧ jsonStart c = true
    unfold intChars
    by_cases hn : n < 0
    · rw [if_pos hn]
      exact ⟨'-', _, rfl, by decide⟩
    · rw [if_neg hn]
      obtain ⟨c, cs, hc, hd⟩ := natChars_shape n.toNat
      exact ⟨c, cs, hc, by simp [jsonStart, hd]⟩
  | str s => exact ⟨'"', _, rfl, by decide⟩
  | arr xs => exact ⟨'[', _, rfl, by decide⟩
  | obj fs => exact ⟨'{', _, rfl, by decide⟩

theorem arrChars_cons (x : Json) (t : List Json) :
    ∃ tail, arrChars (x :: t) = jsonChars x ++ tail := by
  cases t with
  | nil => exact ⟨[], by simp [arrChars]⟩
  | cons y t2 => exact ⟨',' :: arrChars (y :: t2), by simp [arrChars]⟩

theorem objChars_cons (p : String × Json) (t : List (String × Json)) :
    ∃ tail, objChars (p :: t) = '"' :: tail := by
  obtain ⟨k, v⟩ := p
  cases t with
  | nil => exact ⟨_, rfl⟩
  | cons g t2 => exact ⟨_, rfl⟩

theorem parse_rt (f : Nat) :
    (∀ (v : Json) (rest : Chars), jfuel v ≤ f → headDigit rest = false →
      parseV f (jsonChars v ++ rest) = some (v, rest)) ∧
    (∀ (xs : List Json) (rest : Chars), xs ≠ [] → efuel xs ≤ f →
      parseElems f (arrChars xs ++ ']' :: rest) = some (xs, rest)) ∧
    (∀ (fs : List (String × Json)) (rest : Chars), fs ≠ [] → ffuel fs ≤ f →
      parseFields f (objChars fs ++ '}' :: rest) = some (fs, rest)) := by
  induction f with
  | zero =>
    refine ⟨fun v _ h _ => absurd h (by have := jfuel_pos v; omega),
            fun xs _ _ h => absurd h (by have := efuel_pos xs; omega),
            fun fs _ _ h => absurd h (by have := ffuel_pos fs; omega)⟩
  | succ f ih =>
    obtain ⟨ihv, ihe, ihf⟩ := ih
    refine ⟨?_, ?_, ?_⟩
    · -- values
      intro v rest hf hr
      cases v with
      | null => simp +decide [jsonChars, parseV, expectLit]
      | bool b => cases b <;> simp +decide [jsonChars, parseV, expectLit]
      | num n =>
        show parseV (f + 1) (intChars n ++ rest) = _
        unfold intChars
        by_cases hneg : n < 0
        · rw [if_pos hneg]
          simp +decide only [List.cons_append, parseV, if_true, if_false]
          rw [parseDigitsNE_append _ _ hr]
          have hval : -((n.natAbs : Int)) = n := by omega
          show some (Json.num (-((n.natAbs : Int))), rest) = some (Json.num n, rest)
          rw [hval]
        · rw [if_neg hneg]
          obtain ⟨c, cs, hnc, hcd⟩ := natChars_shape n.toNat
          rw [hnc]
          simp only [List.cons_append, parseV]
          rw [if_pos hcd]
          rw [show c :: (cs ++ rest) = (c :: cs) ++ rest from rfl, ← hnc]
          rw [parseDigitsNE_append _ _ hr]
          have hval : ((n.toNat : Int)) = n := Int.toNat_of_nonneg (by omega)
          show some (Json.num ((n.toNat : Int)), rest) = some (Json.num n, rest)
          rw [hval]
      | str s =>
        show parseV (f + 1) (('"' :: (escStr s.data ++ ['"'])) ++ rest) = _
        have harr : ('"' :: (escStr s.data ++ ['"'])) ++ rest
            = '"' :: (escStr s.data ++ '"' :: rest) := by simp
        rw [harr]
        simp +decide only [parseV, if_true, if_false]
        rw [parseStrBody_escStr s.data rest]
        simp [strEta]
      | arr xs =>
        cases xs with
        | nil => simp +decide [jsonChars, arrChars, parseV]
        | cons x t =>
          show parseV (f + 1) (('[' :: (arrChars (x :: t) ++ [']'])) ++ rest) = _
          have harr : ('[' :: (arrChars (x :: t) ++ [']'])) ++ rest
              = '[' :: (arrChars (x :: t) ++ ']' :: rest) := by simp
          rw [harr]
          simp +decide only [parseV, if_true, if_false]
          obtain ⟨tail, htail⟩ := arrChars_cons x t
          obtain ⟨c0, cs0, hc0, hst⟩ := jsonChars_shape x
          rw [if_neg (by
            rw [htail, hc0]
            simp only [List.cons_append, List.head?_cons, Option.some.injEq]
            exact fun he => (jsonStart_ne_close hst).1 he)]
          rw [ihe (x :: t) rest (by simp) (by simp only [jfuel] at hf; omega)]
          rfl
      | obj fs =>
        cases fs with
        | nil => simp +decide [jsonChars, objChars, parseV]
        | cons p t =>
          show parseV (f + 1) (('{' :: (objChars (p :: t) ++ ['}'])) ++ rest) = _
          have harr : ('{' :: (objChars (p :: t) ++ ['}'])) ++ rest
              = '{' :: (objChars (p :: t) ++ '}' :: rest) := by simp
          rw [harr]
          simp +decide only [parseV, if_true, if_false]
          obtain ⟨tail, htail⟩ := objChars_cons p t
          rw [if_neg (by rw [htail]; simp)]
          rw [ihf (p :: t) rest (by simp) (by simp only [jfuel] at hf; omega)]
          rfl
    · -- array elements
      intro xs rest hne hfu
      cases xs with
      | nil => exact absurd rfl hne
      | cons x t =>
        cases t with
        | nil =>
          show parseElems (f + 1) (arrChars [x] ++ ']' :: rest) = _
          rw [show arrChars [x] = jsonChars x from rfl]
          simp only [parseElems]
          rw [ihv x (']' :: rest) (by simp only [efuel] at hfu; omega) rfl]
          simp +decide
        | cons y t2 =>
          show parseElems (f + 1)
              ((jsonChars x ++ ',' :: arrChars (y :: t2)) ++ ']' :: rest) = _
          have harr : (jsonChars x ++ ',' :: arrChars (y :: t2)) ++ ']' :: rest
              = jsonChars x ++ ',' :: (arrChars (y :: t2) ++ ']' :: rest) := by simp
          rw [harr]
          simp only [parseElems]
          rw [ihv x (',' :: (arrChars (y :: t2) ++ ']' :: rest))
            (by simp only [efuel] at hfu; omega) rfl]
          simp +decide only [List.head?_cons, List.tail_cons, Option.some.injEq, reduceIte, if_true, if_false]
          rw [ihe (y :: t2) rest (by simp) (by simp only [efuel] at hfu ⊢; omega)]
          rfl
    · -- object fields
      intro fs rest hne hfu
      cases fs with
      | nil => exact absurd rfl hne
      | cons p t =>
        obtain ⟨k, v⟩ := p
        cases t with
        | nil =>
          show parseFields (f + 1)
              (('"' :: (escStr k.data ++ '"' :: ':' :: jsonChars v)) ++ '}' :: rest) = _
          have harr : (('"' :: (escStr k.data ++ '"' :: ':' :: jsonChars v)) ++ '}' :: rest)
              = '"' :: (escStr k.data ++ '"' :: (':' :: (jsonChars v ++ '}' :: rest))) := by
            simp
          rw [harr]
          simp +decide only [parseFields, if_true, if_false]
          rw [parseStrBody_escStr k.data (':' :: (jsonChars v ++ '}' :: rest))]
          simp +decide only [List.head?_cons, List.tail_cons, Option.some.injEq, reduceIte, if_true, if_false]
          rw [ihv v ('}' :: rest) (by simp only [ffuel] at hfu; omega) rfl]
          simp +decide [strEta]
        | cons g t2 =>
          show parseFields (f + 1)
              ((('"' :: (escStr k.data ++ '"' :: ':' :: jsonChars v)) ++
                ',' :: objChars (g :: t2)) ++ '}' :: rest) = _
          have harr : ((('"' :: (escStr k.data ++ '"' :: ':' :: jsonChars v)) ++
                ',' :: objChars (g :: t2)) ++ '}' :: rest)
              = '"' :: (escStr k.data ++ '"' ::
                  (':' :: (jsonChars v ++ ',' :: (objChars (g :: t2) ++ '}' :: rest)))) := by
            simp
          rw [harr]
          simp +decide only [parseFields, if_true, if_false]
          rw [parseStrBody_escStr k.data
            (':' :: (jsonChars v ++ ',' :: (objChars (g :: t2) ++ '}' :: rest)))]
          simp +decide only [List.head?_cons, List.tail_cons, Option.some.injEq, reduceIte, if_true, if_false]
          rw [ihv v (',' :: (objChars (g :: t2) ++ '}' :: rest))
            (by simp only [ffuel] at hfu; omega) rfl]
          simp +decide only [List.head?_cons, List.tail_cons, Option.some.injEq, reduceIte, if_true, if_false]
          rw [ihf (g :: t2) rest (by simp) (by simp only [ffuel] at hfu ⊢; omega)]
          simp [strEta]

theorem intChars_length_pos (n : Int) : 0 < (intChars n).length := by
  unfold intChars
  by_cases hneg : n < 0
  · rw [if_pos hneg]; simp
  · rw [if_neg hneg]; exact List.length_pos.mpr (natChars_ne_nil _)

mutual

theorem jfuel_le : ∀ v : Json, jfuel v ≤ 2 * (jsonChars v).length
  | .null => by simp [jfuel, jsonChars]
  | .bool b => by cases b <;> simp [jfuel, jsonChars]
  | .num n => by
    have h1 := intChars_length_pos n
    simp only [jfuel, jsonChars]
    omega
  | .str s => by
    simp only [jfuel, jsonChars, List.length_cons, List.length_append]
    omega
  | .arr xs => by
    have h := efuel_le xs
    simp only [jfuel, jsonChars, List.length_cons, List.length_append]
    omega
  | .obj fs => by
    have h := ffuel_le fs
    simp only [jfuel, jsonChars, List.length_cons, List.length_append]
    omega

theorem efuel_le : ∀ xs : List Json, efuel xs ≤ 2 * (arrChars xs).length + 3
  | [] => by simp [efuel, arrChars]
  | [x] => by
    have h := jfuel_le x
    simp only [efuel, arrChars, List.length_cons, List.length_append]
    omega
  | x :: y :: t => by
    have h1 := jfuel_le x
    have h2 := efuel_le (y :: t)
    simp only [efuel] at h2 ⊢
    simp only [arrChars, List.length_cons, List.length_append]
    omega

theorem ffuel_le : ∀ fs : List (String × Json), ffuel fs ≤ 2 * (objChars fs).length + 3
  | [] => by simp [ffuel, objChars]
  | [(k, v)] => by
    have h := jfuel_le v
    simp only [ffuel, objChars, List.length_cons, List.length_append]
    omega
  | (k, v) :: g :: t => by
    have h1 := jfuel_le v
    have h2 := ffuel_le (g :: t)
    simp only [ffuel] at h2 ⊢
    simp only [objChars, List.length_cons, List.length_append]
    omega

end

/-- A serialized JSON document parses back to the original value. -/
theorem jsonParse_jsonChars (v : Json) : jsonParse (jsonChars v) = some v := by
  unfold jsonParse
  have h := (parse_rt (2 * (jsonChars v).length + 2)).1 v []
    (by have := jfuel_le v; omega) rfl
  rw [List.append_nil] at h
  rw [h]
  rfl

theorem jsonChars_injective {a b : Json} (h : jsonChars a = jsonChars b) : a = b := by
  have ha := jsonParse_jsonChars a
  have hb := jsonParse_jsonChars b
  rw [h] at ha
  rw [ha] at hb
  exact Option.some.inj hb

instance : DecidableEq Json := fun a b =>
  decidable_of_iff (jsonChars a = jsonChars b) ⟨jsonChars_injective, fun h => by rw [h]⟩

/-! ## TCP wire framing (`tcpClient.ts`). -/

/-- The frame delimiter (`'\f'`, form feed). -/
def NODE_IPC_DELIMITER : Char := '\x0c'

/-- JavaScript `String.prototype.trim` (the whitespace set restricted to the
ASCII whitespace characters, which include the form-feed delimiter). -/
def jsTrim (cs : Chars) : Chars :=
  ((cs.dropWhile isJsWs).reverse.dropWhile isJsWs).reverse

/-- JavaScript `String.prototype.split` on the form-feed delimiter. -/
def splitFF : Chars → List Chars
  | [] => [[]]
  | c :: r =>
    if c = NODE_IPC_DELIMITER then [] :: splitFF r
    else
      match splitFF r with
      | [] => [[c]]
      | s :: ss => (c :: s) :: ss

/-- Object-field access on a decoded JSON value. -/
def jget : Json → String → Option Json
  | .obj fs, k => alookup k fs
  | _, _ => none

/-- A decoded TCP envelope: its `type` tag and `data` payload. -/
structure TcpEvent where
  type : String
  data : Json
  deriving DecidableEq

/-- Errors thrown inside `IronfishTcpClient.onData` and caught by
`onClientData`: a `JSON.parse` syntax error, or the `error` thrown when
`TcpResponseSchema` validation fails. -/
inductive WireError where
  | jsonSyntax (fragment : String)
  | schemaFailure
  deriving DecidableEq

/-- Modelled from the spec: `TcpResponseSchema` — a `yup` object schema
requiring `type` to be one of the four envelope kinds and `data` to be
present and non-null (`required`). -/
def tcpResponseValidate (j : Json) : Option TcpEvent :=
  match jget j ("type") with
  | some (.str t) =>
    if t = ("message") ∨ t = ("malformedRequest") ∨ t = ("error") ∨ t = ("stream") then
      match jget j ("data") with
      | some d => if d = Json.null then none else some ⟨t, d⟩
      | none => none
    else none
  | _ => none

/-- `IronfishTcpClient.send`: wrap `{mid, type: route, data}` in a `message`
envelope, serialize it, append the delimiter, write to the socket. -/
def sendChars (messageId : Int) (route : String) (data : Json) : Chars :=
  jsonChars (.obj [(("type"), .str ("message")),
                   (("data"), .obj [(("mid"), .num messageId),
                                    (("type"), .str route),
                                    (("data"), data)])]) ++ [NODE_IPC_DELIMITER]

/-- The event loop inside `IronfishTcpClient.onData`: `JSON.parse` each
split-off fragment, validate it against `TcpResponseSchema`, and dispatch it;
the first failure throws, abandoning the remaining fragments of this read. -/
def processEvents : List Chars → List TcpEvent × Option WireError
  | [] => ([], none)
  | e :: rest =>
    match jsonParse e with
    | none => ([], some (.jsonSyntax (String.mk e)))
    | some j =>
      match tcpResponseValidate j with
      | none => ([], some .schemaFailure)
      | some ev =>
        let p := processEvents rest
        (ev :: p.1, p.2)

/-- `IronfishTcpClient.onData` on one socket read: decode the chunk, trim it,
split it on the delimiter, then parse/validate/dispatch each event in order.
Returns the envelopes dispatched and the error, if one was thrown (routed to
`onError` by `onClientData`). -/
def onData (chunk : Chars) : List TcpEvent × Option WireError :=
  processEvents (splitFF (jsTrim chunk))

/-- Consecutive socket reads.  Each read is processed independently:
`onData` keeps no buffer from one read to the next. -/
def onDataChunks : List Chars → List TcpEvent × List WireError
  | [] => ([], [])
  | c :: cs =>
    let p := onData c
    let q := onDataChunks cs
    (p.1 ++ q.1, p.2.toList ++ q.2)

/-- Whether a string contains the frame delimiter.  (Real `JSON.stringify`
escapes control characters, so the delimiter never appears raw inside an
encoded frame; our serializer leaves control characters literal, so wire
statements assume delimiter-free payload strings instead.) -/
def strHasFF (s : String) : Bool := s.data.any (· = NODE_IPC_DELIMITER)

mutual

/-- No string anywhere in the value contains the frame delimiter. -/
def Json.ffFree : Json → Bool
  | .null => true
  | .bool _ => true
  | .num _ => true
  | .str s => !strHasFF s
  | .arr xs => ffFreeList xs
  | .obj fs => ffFreeFields fs

/-- `ffFree` over array elements. -/
def ffFreeList : List Json → Bool
  | [] => true
  | x :: t => Json.ffFree x && ffFreeList t

/-- `ffFree` over object fields. -/
def ffFreeFields : List (String × Json) → Bool
  | [] => true
  | p :: t => (!strHasFF p.1 && Json.ffFree p.2) && ffFreeFields t

end

theorem notMem_natChars (n : Nat) : NODE_IPC_DELIMITER ∉ natChars n := by
  intro hmem
  have := natChars_digit n _ hmem
  exact absurd this (by decide)

theorem notMem_intChars (n : Int) : NODE_IPC_DELIMITER ∉ intChars n := by
  unfold intChars
  by_cases hneg : n < 0
  · rw [if_pos hneg]
    intro hmem
    rcases List.mem_cons.mp hmem with h | h
    · exact absurd h (by decide)
    · exact notMem_natChars _ h
  · rw [if_neg hneg]
    exact notMem_natChars _

theorem notMem_escStr (s : Chars) (h : s.any (· = NODE_IPC_DELIMITER) = false) :
    NODE_IPC_DELIMITER ∉ escStr s := by
  induction s with
  | nil => simp [escStr]
  | cons c t ih =>
    simp only [List.any_cons, Bool.or_eq_false_iff] at h
    intro hmem
    have hmem2 : NODE_IPC_DELIMITER ∈ escChar c ++ escStr t := hmem
    rcases List.mem_append.mp hmem2 with h1 | h1
    · unfold escChar at h1
      by_cases e1 : c = '"'
      · rw [if_pos e1] at h1
        exact absurd h1 (by decide)
      · rw [if_neg e1] at h1
        by_cases e2 : c = '\\'
        · rw [if_pos e2] at h1
          exact absurd h1 (by decide)
        · rw [if_neg e2] at h1
          simp only [List.mem_singleton] at h1
          subst h1
          simp at h
    · exact ih h.2 h1

mutual

theorem ffFree_notMem : ∀ v : Json, Json.ffFree v = true → NODE_IPC_DELIMITER ∉ jsonChars v
  | .null, _ => by decide
  | .bool b, _ => by cases b <;> decide
  | .num n, _ => notMem_intChars n
  | .str s, h => by
    intro hmem
    rcases List.mem_cons.mp hmem with h1 | h1
    · exact absurd h1 (by decide)
    · rcases List.mem_append.mp h1 with h2 | h2
      · have hs : s.data.any (· = NODE_IPC_DELIMITER) = false := by
          simp only [Json.ffFree, strHasFF, Bool.not_eq_true'] at h
          exact h
        exact notMem_escStr _ hs h2
      · exact absurd h2 (by decide)
  | .arr xs, h => by
    intro hmem
    rcases List.mem_cons.mp hmem with h1 | h1
    · exact absurd h1 (by decide)
    · rcases List.mem_append.mp h1 with h2 | h2
      · exact ffFreeList_notMem xs (by simpa [Json.ffFree] using h) h2
      · exact absurd h2 (by decide)
  | .obj fs, h => by
    intro hmem
    rcases List.mem_cons.mp hmem with h1 | h1
    · exact absurd h1 (by decide)
    · rcases List.mem_append.mp h1 with h2 | h2
      · exact ffFreeFields_notMem fs (by simpa [Json.ffFree] using h) h2
      · exact absurd h2 (by decide)

theorem ffFreeList_notMem : ∀ xs : List Json, ffFreeList xs = true →
    NODE_IPC_DELIMITER ∉ arrChars xs
  | [], _ => by simp [arrChars]
  | [x], h => by
    simp only [ffFreeList, Bool.and_eq_true] at h
    exact ffFree_notMem x h.1
  | x :: y :: t, h => by
    simp only [ffFreeList, Bool.and_eq_true] at h
    intro hmem
    rcases List.mem_append.mp hmem with h1 | h1
    · exact ffFree_notMem x h.1 h1
    · rcases List.mem_cons.mp h1 with h2 | h2
      · exact absurd h2 (by decide)
      · exact ffFreeList_notMem (y :: t) (by
          simp only [ffFreeList, Bool.and_eq_true]
          exact h.2) h2

theorem ffFreeFields_notMem : ∀ fs : List (String × Json), ffFreeFields fs = true →
    NODE_IPC_DELIMITER ∉ objChars fs
  | [], _ => by simp [objChars]
  | [(k, v)], h => by
    simp only [ffFreeFields, Bool.and_eq_true, Bool.not_eq_true'] at h
    intro hmem
    rcases List.mem_cons.mp hmem with h1 | h1
    · exact absurd h1 (by decide)
    · rcases List.mem_append.mp h1 with h2 | h2
      · exact notMem_escStr _ h.1.1 h2
      · rcases List.mem_cons.mp h2 with h3 | h3
        · exact absurd h3 (by decide)
        · rcases List.mem_cons.mp h3 with h4 | h4
          · exact absurd h4 (by decide)
          · exact ffFree_notMem v h.1.2 h4
  | (k, v) :: g :: t, h => by
    simp only [ffFreeFields, Bool.and_eq_true, Bool.not_eq_true'] at h
    intro hmem
    rcases List.mem_append.mp hmem with h1 | h1
    · rcases List.mem_cons.mp h1 with h2 | h2
      · exact absurd h2 (by decide)
      · rcases List.mem_append.mp h2 with h3 | h3
        · exact notMem_escStr _ h.1.1 h3
        · rcases List.mem_cons.mp h3 with h4 | h4
          · exact absurd h4 (by decide)
          · rcases List.mem_cons.mp h4 with h5 | h5
            · exact absurd h5 (by decide)
            · exact ffFree_notMem v h.1.2 h5
    · rcases List.mem_cons.mp h1 with h2 | h2
      · exact absurd h2 (by decide)
      · exact ffFreeFields_notMem (g :: t) (by
          simp only [ffFreeFields, Bool.and_eq_true, Bool.not_eq_true']
          exact h.2) h2

end

theorem jsTrim_payload (body : Chars) :
    jsTrim (('{' :: (body ++ ['}'])) ++ [NODE_IPC_DELIMITER]) = '{' :: (body ++ ['}']) := by
  unfold jsTrim
  have h0 : ('{' :: (body ++ ['}'])) ++ [NODE_IPC_DELIMITER]
      = '{' :: (body ++ ['}'] ++ [NODE_IPC_DELIMITER]) := by simp
  rw [h0, List.dropWhile_cons, if_neg (by decide)]
  have h2 : ('{' :: (body ++ ['}'] ++ [NODE_IPC_DELIMITER])).reverse
      = NODE_IPC_DELIMITER :: ('}' :: (body.reverse ++ ['{'])) := by simp
  rw [h2, List.dropWhile_cons, if_pos (by decide), List.dropWhile_cons, if_neg (by decide)]
  simp

theorem splitFF_noFF (cs : Chars) (h : NODE_IPC_DELIMITER ∉ cs) : splitFF cs = [cs] := by
  induction cs with
  | nil => rfl
  | cons c r ih =>
    simp only [List.mem_cons, not_or] at h
    simp only [splitFF]
    rw [if_neg (fun he => h.1 he.symm)]
    rw [ih h.2]

/-- C9: encoding a request with `send` and then decoding the wire bytes with
`onData`'s frame-splitting and envelope-decoding rule yields exactly one
`message` envelope carrying the original `{mid, type: route, data}` triple,
and no error, for every delimiter-free JSON payload. -/
theorem send_onData_roundtrip (mid : Int) (route : String) (data : Json)
    (h1 : strHasFF route = false) (h2 : Json.ffFree data = true) :
    onData (sendChars mid route data) =
      ([⟨("message"), Json.obj [(("mid"), Json.num mid),
                                (("type"), Json.str route),
                                (("data"), data)]⟩], none) := by
  unfold onData sendChars
  set inner : Json := Json.obj [(("mid"), Json.num mid),
                                (("type"), Json.str route),
                                (("data"), data)] with hinner
  set envl : Json := Json.obj [(("type"), Json.str ("message")), (("data"), inner)] with henv
  have hjc : jsonChars envl = '{' :: (objChars [(("type"), Json.str ("message")),
      (("data"), inner)] ++ ['}']) := rfl
  rw [hjc, jsTrim_payload]
  have hff : Json.ffFree envl = true := by
    have hr : route.data.any (· = NODE_IPC_DELIMITER) = false := h1
    simp +decide [henv, hinner, Json.ffFree, ffFreeFields, strHasFF, hr, h2]
  have hnm : NODE_IPC_DELIMITER ∉ '{' :: (objChars [(("type"), Json.str ("message")),
      (("data"), inner)] ++ ['}']) := by
    rw [← hjc]
    exact ffFree_notMem envl hff
  rw [splitFF_noFF _ hnm]
  simp only [processEvents]
  rw [← hjc, jsonParse_jsonChars envl]
  have hval : tcpResponseValidate envl = some ⟨("message"), inner⟩ := by
    simp +decide [tcpResponseValidate, henv, hinner, jget, alookup]
  simp [hval]

/-- A payload exercising a nested object, an array, the empty string and
null, as the round-trip property enumerates. -/
def c9Demo : Json :=
  Json.obj [(("a"), Json.arr [Json.num 1, Json.str ("")]),
            (("b"), Json.null),
            (("c"), Json.obj [(("d"), Json.str ("x"))])]

/-- Witness for `send_onData_roundtrip` at a concrete nested payload. -/
theorem send_onData_roundtrip_witness :
    onData (sendChars 7 ("echo") c9Demo) =
      ([⟨("message"), Json.obj [(("mid"), Json.num 7),
                                (("type"), Json.str ("echo")),
                                (("data"), c9Demo)]⟩], none) :=
  send_onData_roundtrip 7 ("echo") c9Demo (by decide) (by decide)

/-- A single well-formed `stream` frame followed by the delimiter. -/
def c3Frame : Chars :=
  jsonChars (Json.obj [(("type"), Json.str ("stream")), (("data"), Json.num 1)]) ++
    [NODE_IPC_DELIMITER]

/-- The first half of `c3Frame`, cut in the middle of the JSON text. -/
def c3Read1 : Chars := c3Frame.take 11

/-- The second half of `c3Frame`. -/
def c3Read2 : Chars := c3Frame.drop 11

/-- C3: `onData` holds no partial-frame buffer between reads.  Delivering
one well-formed frame in a single read yields its envelope, but delivering
the same bytes split across two reads at an arbitrary boundary yields no
envelope at all and two JSON syntax errors — the decoded sequence differs,
refuting reassembly across read boundaries. -/
theorem tcp_framing_split_read_bug :
    c3Read1 ++ c3Read2 = c3Frame ∧
    onDataChunks [c3Frame] = ([⟨("stream"), Json.num 1⟩], []) ∧
    (onDataChunks [c3Read1, c3Read2]).1 = [] ∧
    (onDataChunks [c3Read1, c3Read2]).2.length = 2 := by
  refine ⟨List.take_append_drop 11 c3Frame, ?_, ?_, ?_⟩ <;> decide

/-! ## The RPC client multiplexer (`IronfishRpcClient`, `part_000`).

The abstract client is a state machine.  JavaScript promises and the
per-request `resolve`/`reject` closures are modelled by an explicit
settlement log: settling request `mid` appends one `Settlement` entry, which
corresponds to the one call of the underlying promise's `resolve`/`reject`.
The `Stream` and `Response` helper objects (not under `src/`) are modelled
from the spec as per-id records that outlive the pending table, since the
application holds references to them. -/

/-- The structured error body of an error envelope (spec §6). -/
structure ErrBody where
  code : String
  message : String
  stack : Option String
  deriving DecidableEq

/-- The errors observable from the client (`errors.ts` is not under `src/`;
the taxonomy is modelled from the spec §7). -/
inductive RpcError where
  | connectionLost (route : String)
  | requestTimeout (timeoutMs : Nat) (route : String)
  | requestError (code : String) (message : String) (stack : Option String)
  | validationError (schema : String)
  | raw (data : Json)
  deriving DecidableEq

/-- One record of the `pending` table: the route (`type`) and the configured
timeout captured by the request closures (`timeout` token is non-null exactly
when `timeoutMs` was non-null). -/
structure PendingEntry where
  type : String
  timeoutMs : Option Nat
  deriving DecidableEq

/-- How a request settled: the one `resolve` or `reject` call. -/
inductive Settlement where
  | resolved (value : Json)
  | rejected (error : RpcError)
  deriving DecidableEq

/-- Modelled from the spec: a `Stream` is an ordered sequence of partial
values with an idempotent `close`; writes after `close` are ignored. -/
structure StreamSt where
  values : List Json
  closed : Bool
  deriving DecidableEq

/-- Modelled from the spec: `Stream.write`. -/
def StreamSt.write (s : StreamSt) (v : Json) : StreamSt :=
  if s.closed then s else { s with values := s.values ++ [v] }

/-- Modelled from the spec: `Stream.close`. -/
def StreamSt.close (s : StreamSt) : StreamSt := { s with closed := true }

/-- The observable state of one `IronfishRpcClient` (concretely, of the
`IronfishTcpClient` composition).  `clientIsNull` mirrors `this.client ===
null`; `statuses` records the `response.status` assignments; `settled` is the
settlement log; `errors` the `onError` emissions; `closeEmits` counts
`onClose.emit()`; `sent` the `send(messageId, route, data)` calls. -/
structure ClientState where
  isConnected : Bool
  clientIsNull : Bool
  timeoutMsDefault : Option Nat
  messageIds : Int
  pending : List (Int × PendingEntry)
  timers : List Int
  streams : List (Int × StreamSt)
  statuses : List (Int × Int)
  settled : List (Int × Settlement)
  errors : List RpcError
  closeEmits : Nat
  sent : List (Int × String × Json)
  deriving DecidableEq

/-- A freshly constructed `IronfishTcpClient`: the socket is created eagerly
in the constructor, so `client` is never null; `isConnected` starts false;
the default `timeoutMs` is `REQUEST_TIMEOUT_MS = null`. -/
def tcpInit : ClientState :=
  { isConnected := false
    clientIsNull := false
    timeoutMsDefault := none
    messageIds := 0
    pending := []
    timers := []
    streams := []
    statuses := []
    settled := []
    errors := []
    closeEmits := 0
    sent := [] }

/-- Close a request's stream in the stream map (no-op on an absent id). -/
def closeStream (mid : Int) (l : List (Int × StreamSt)) : List (Int × StreamSt) :=
  l.map (fun p => if p.1 = mid then (p.1, p.2.close) else p)

/-- Write into a request's stream in the stream map. -/
def writeStream (mid : Int) (v : Json) (l : List (Int × StreamSt)) :
    List (Int × StreamSt) :=
  l.map (fun p => if p.1 = mid then (p.1, p.2.write v) else p)

/-- `resolveRequest` from `request()`: delete the id from the pending table,
clear the timer if armed, close the stream, and resolve the promise. -/
def resolveRequest (st : ClientState) (mid : Int) (v : Json) : ClientState :=
  { st with pending := aerase mid st.pending
            timers := st.timers.filter (fun t => t ≠ mid)
            streams := closeStream mid st.streams
            settled := st.settled ++ [(mid, Settlement.resolved v)] }

/-- `rejectRequest` from `request()`: delete the id from the pending table,
clear the timer if armed, close the stream, and reject the promise. -/
def rejectRequest (st : ClientState) (mid : Int) (e : RpcError) : ClientState :=
  { st with pending := aerase mid st.pending
            timers := st.timers.filter (fun t => t ≠ mid)
            streams := closeStream mid st.streams
            settled := st.settled ++ [(mid, Settlement.rejected e)] }

/-- `IronfishRpcClient.request`.  `Assert.isNotNull(this.client, 'Connect
first using connect()')` throws exactly when the client field is null;
otherwise the message id is allocated, the timer armed when the resolved
`timeoutMs` is non-null, the pending record stored, and the message sent.
`optsTimeoutMs = none` models an absent `options.timeoutMs` (undefined),
which falls back to `this.timeoutMs`. -/
def request (st : ClientState) (route : String) (data : Json)
    (optsTimeoutMs : Option (Option Nat)) : Except String (ClientState × Int) :=
  if st.clientIsNull then Except.error ("Connect first using connect()")
  else
    let mid := st.messageIds + 1
    let tms := optsTimeoutMs.getD st.timeoutMsDefault
    Except.ok
      ({ st with
          messageIds := mid
          timers := if tms.isSome then st.timers ++ [mid] else st.timers
          streams := aset mid { values := [], closed := false } st.streams
          pending := aset mid { type := route, timeoutMs := tms } st.pending
          sent := st.sent ++ [(mid, route, data)] }, mid)

/-- The `setTimeout` callback armed by `request()`: if the id is still in the
pending table (and the captured `response` is set, which it always is by the
time the event loop can run the callback), reject with `RequestTimeoutError`
carrying the captured duration and route. -/
def fireTimeout (st : ClientState) (mid : Int) : ClientState :=
  match alookup mid st.pending with
  | none => st
  | some m =>
    match m.timeoutMs with
    | some d => rejectRequest st mid (RpcError.requestTimeout d m.type)
    | none => st

/-- `IronfishRpcClient.onDisconnect`: mark disconnected (and unsubscribe the
transport handlers), reject every pending request with `ConnectionLostError`
tagged with its route, clear the table, and emit `onClose`. -/
def onDisconnect (st : ClientState) : ClientState :=
  let st1 := { st with isConnected := false }
  let st2 := st1.pending.foldl
    (fun acc p => rejectRequest acc p.1 (RpcError.connectionLost p.2.type)) st1
  { st2 with pending := [], closeEmits := st2.closeEmits + 1 }

/-- `IronfishTcpClient.onClientClose` (the socket `close` handler): set
`isConnected` to false and unsubscribe the data handlers — nothing else. -/
def onClientClose (st : ClientState) : ClientState :=
  { st with isConnected := false }

/-- `IronfishTcpClient.onConnect`: mark connected and subscribe the data
handlers (the override does not call the base `onConnect`). -/
def tcpOnConnect (st : ClientState) : ClientState :=
  { st with isConnected := true }

/-- A decoded `IpcResponseSchema` value (spec §6: `{id, status, data}`). -/
structure IpcResp where
  id : Int
  status : Int
  data : Json
  deriving DecidableEq

/-- A decoded `IpcStreamSchema` value (spec §6: `{id, data}`). -/
structure IpcStream where
  id : Int
  data : Json
  deriving DecidableEq

/-- Modelled from the spec: `YupUtils.tryValidate` with `IpcResponseSchema`
returns `{result, error}` with exactly one side set. -/
def ipcResponseValidate (j : Json) : Option IpcResp × Option RpcError :=
  match jget j ("id"), jget j ("status") with
  | some (Json.num i), some (Json.num s) =>
    (some { id := i, status := s, data := (jget j ("data")).getD Json.null }, none)
  | _, _ => (none, some (RpcError.validationError ("IpcResponseSchema")))

/-- Modelled from the spec: `YupUtils.tryValidate` with `IpcStreamSchema`. -/
def ipcStreamValidate (j : Json) : Option IpcStream × Option RpcError :=
  match jget j ("id"), jget j ("data") with
  | some (Json.num i), some d => (some { id := i, data := d }, none)
  | _, _ => (none, some (RpcError.validationError ("IpcStreamSchema")))

/-- Modelled from the spec: `YupUtils.tryValidate` with `IpcErrorSchema`
(`{code: string, message: string, stack?: string}`). -/
def ipcErrorValidate (j : Json) : Option ErrBody × Option RpcError :=
  match jget j ("code"), jget j ("message") with
  | some (Json.str c), some (Json.str m) =>
    match jget j ("stack") with
    | some (Json.str s) => (some { code := c, message := m, stack := some s }, none)
    | none => (some { code := c, message := m, stack := none }, none)
    | some _ => (none, some (RpcError.validationError ("IpcErrorSchema")))
  | _, _ => (none, some (RpcError.validationError ("IpcErrorSchema")))

/-- Modelled from the spec: `isResponseError` — the envelope status indicates
failure (HTTP-style; the spec's scenario treats status 200 as success). -/
def isResponseError (status : Int) : Bool := 400 ≤ status

/-- The tail of `handleEnd` on a failure status, after validating the error
body: `if (errorBody) … else if (errorError) … else reject(data)`. -/
def handleEndError (st : ClientState) (mid : Int) (raw : Json) :
    Option ErrBody × Option RpcError → ClientState
  | (some eb, _) => rejectRequest st mid (RpcError.requestError eb.code eb.message eb.stack)
  | (none, some ee) => rejectRequest st mid ee
  | (none, none) => rejectRequest st mid (RpcError.raw raw)

/-- The body of `handleEnd` after a successful envelope validation: drop the
envelope silently if its id has no pending record; otherwise record
`response.status`, then reject via the error path on a failure status or
resolve with the payload data. -/
def handleEndMatched (st : ClientState) (r : IpcResp) (data : Json) : ClientState :=
  match alookup r.id st.pending with
  | none => st
  | some _ =>
    let st1 := { st with statuses := aset r.id r.status st.statuses }
    if isResponseError r.status then handleEndError st1 r.id data (ipcErrorValidate r.data)
    else resolveRequest st1 r.id r.data

/-- `IronfishRpcClient.handleEnd`: validate the envelope (throwing the
validation error on failure), then continue with `handleEndMatched`. -/
def handleEnd (st : ClientState) (data : Json) : Except RpcError ClientState :=
  match (ipcResponseValidate data).1 with
  | none =>
    Except.error ((ipcResponseValidate data).2.getD (RpcError.validationError ("undefined")))
  | some r => Except.ok (handleEndMatched st r data)

/-- The body of `handleStream` after a successful envelope validation: drop
the envelope silently if its id has no pending record, else write the partial
value into the request's stream. -/
def handleStreamMatched (st : ClientState) (r : IpcStream) : ClientState :=
  match alookup r.id st.pending with
  | none => st
  | some _ => { st with streams := writeStream r.id r.data st.streams }

/-- `IronfishRpcClient.handleStream`: validate the envelope (throwing on
failure), then continue with `handleStreamMatched`. -/
def handleStream (st : ClientState) (data : Json) : Except RpcError ClientState :=
  match (ipcStreamValidate data).1 with
  | none =>
    Except.error ((ipcStreamValidate data).2.getD (RpcError.validationError ("undefined")))
  | some r => Except.ok (handleStreamMatched st r)

/-- `IronfishRpcClient.onMessage`: `handleEnd(data).catch(e => onError.emit(e))`. -/
def onMessage (st : ClientState) (data : Json) : ClientState :=
  match handleEnd st data with
  | Except.ok st2 => st2
  | Except.error e => { st with errors := st.errors ++ [e] }

/-- `IronfishRpcClient.onStream`: `handleStream(data).catch(e => onError.emit(e))`. -/
def onStream (st : ClientState) (data : Json) : ClientState :=
  match handleStream st data with
  | Except.ok st2 => st2
  | Except.error e => { st with errors := st.errors ++ [e] }

/-! ## Association-list facts used by the table invariants. -/

theorem alookup_eq_none {α : Type} (k : Int) (l : List (Int × α))
    (h : ∀ p ∈ l, p.1 ≠ k) : alookup k l = none := by
  induction l with
  | nil => rfl
  | cons p t ih =>
    rw [alookup, if_neg (h p (by simp))]
    exact ih (fun q hq => h q (by simp [hq]))

theorem alookup_mem_keys {α : Type} {k : Int} {l : List (Int × α)} {v : α}
    (h : alookup k l = some v) : k ∈ l.map Prod.fst := by
  induction l with
  | nil => exact absurd h (by simp [alookup])
  | cons p t ih =>
    rw [alookup] at h
    by_cases he : p.1 = k
    · simp [he]
    · rw [if_neg he] at h
      simp [ih h]

theorem keys_aerase {α : Type} (mid : Int) (l : List (Int × α)) :
    (aerase mid l).map Prod.fst = (l.map Prod.fst).filter (fun k => decide (k ≠ mid)) := by
  induction l with
  | nil => rfl
  | cons p t ih =>
    by_cases he : p.1 = mid
    · simp only [aerase, List.filter_cons, List.map_cons]
      rw [if_neg (by simp [he]), if_neg (by simp [he])]
      exact ih
    · simp only [aerase, List.filter_cons, List.map_cons]
      rw [if_pos (by simp [he]), if_pos (by simp [he])]
      simpa [aerase] using ih

theorem mem_keys_aerase {α : Type} {k mid : Int} {l : List (Int × α)} :
    k ∈ (aerase mid l).map Prod.fst ↔ k ∈ l.map Prod.fst ∧ k ≠ mid := by
  rw [keys_aerase, List.mem_filter]
  simp

theorem alookup_aerase_self {α : Type} (mid : Int) (l : List (Int × α)) :
    alookup mid (aerase mid l) = none := by
  apply alookup_eq_none
  intro p hp
  have := List.mem_filter.mp hp
  simpa using this.2

theorem alookup_aerase_of_ne {α : Type} {k mid : Int} (l : List (Int × α)) (h : k ≠ mid) :
    alookup k (aerase mid l) = alookup k l := by
  induction l with
  | nil => rfl
  | cons p t ih =>
    by_cases he : p.1 = mid
    · rw [show aerase mid (p :: t) = aerase mid t from by
        simp [aerase, List.filter_cons, he]]
      rw [ih, alookup, if_neg (fun hk => h (by rw [← hk]; exact he))]
    · rw [show aerase mid (p :: t) = p :: aerase mid t from by
        simp [aerase, List.filter_cons, he]]
      rw [alookup, alookup]
      by_cases hk : p.1 = k
      · rw [if_pos hk, if_pos hk]
      · rw [if_neg hk, if_neg hk, ih]

theorem alookup_append_single_self {α : Type} (k : Int) (v : α) (l : List (Int × α))
    (h : alookup k l = none) : alookup k (l ++ [(k, v)]) = some v := by
  induction l with
  | nil => simp [alookup]
  | cons p t ih =>
    rw [alookup] at h
    by_cases he : p.1 = k
    · rw [if_pos he] at h
      exact absurd h (by simp)
    · rw [if_neg he] at h
      rw [List.cons_append, alookup, if_neg he]
      exact ih h

theorem alookup_aset_self {α : Type} (k : Int) (v : α) (l : List (Int × α)) :
    alookup k (aset k v l) = some v :=
  alookup_append_single_self k v (aerase k l) (alookup_aerase_self k l)

theorem alookup_append_single_ne {α : Type} {k j : Int} (v : α) (l : List (Int × α))
    (h : k ≠ j) : alookup k (l ++ [(j, v)]) = alookup k l := by
  induction l with
  | nil =>
    rw [List.nil_append]
    show (if j = k then some v else none) = none
    exact if_neg (fun hj => h hj.symm)
  | cons p t ih =>
    rw [List.cons_append, alookup, alookup]
    by_cases he : p.1 = k
    · rw [if_pos he, if_pos he]
    · rw [if_neg he, if_neg he, ih]

theorem alookup_aset_ne {α : Type} {k j : Int} (v : α) (l : List (Int × α)) (h : k ≠ j) :
    alookup k (aset j v l) = alookup k l := by
  unfold aset
  rw [alookup_append_single_ne v (aerase j l) h, alookup_aerase_of_ne l h]

theorem mem_keys_aset {α : Type} {k j : Int} {v : α} {l : List (Int × α)} :
    k ∈ (aset j v l).map Prod.fst ↔ k = j ∨ (k ∈ l.map Prod.fst ∧ k ≠ j) := by
  unfold aset
  rw [List.map_append, List.mem_append, mem_keys_aerase]
  constructor
  · rintro (h | h)
    · exact Or.inr h
    · simp at h
      exact Or.inl h
  · rintro (h | h)
    · right
      simp [h]
    · exact Or.inl h

theorem nodup_keys_aset {α : Type} {j : Int} {v : α} {l : List (Int × α)}
    (h : (l.map Prod.fst).Nodup) : ((aset j v l).map Prod.fst).Nodup := by
  unfold aset
  rw [List.map_append]
  apply List.Nodup.append
  · rw [keys_aerase]
    exact h.filter _
  · simp
  · intro a ha hb
    simp only [List.map_cons, List.map_nil, List.mem_singleton] at hb
    subst hb
    rw [keys_aerase, List.mem_filter] at ha
    simpa using ha.2

theorem StreamSt.write_closed (s : StreamSt) (v : Json) : (s.write v).closed = s.closed := by
  unfold StreamSt.write
  by_cases hc : s.closed <;> simp [hc]

theorem keys_closeStream (mid : Int) (l : List (Int × StreamSt)) :
    (closeStream mid l).map Prod.fst = l.map Prod.fst := by
  induction l with
  | nil => rfl
  | cons p t ih =>
    by_cases he : p.1 = mid <;> simp [closeStream, he] <;>
      simpa [closeStream] using ih

theorem keys_writeStream (mid : Int) (v : Json) (l : List (Int × StreamSt)) :
    (writeStream mid v l).map Prod.fst = l.map Prod.fst := by
  induction l with
  | nil => rfl
  | cons p t ih =>
    by_cases he : p.1 = mid <;> simp [writeStream, he] <;>
      simpa [writeStream] using ih

theorem alookup_closeStream_self (mid : Int) (l : List (Int × StreamSt)) :
    alookup mid (closeStream mid l) = (alookup mid l).map StreamSt.close := by
  induction l with
  | nil => rfl
  | cons p t ih =>
    by_cases he : p.1 = mid
    · simp [closeStream, alookup, he]
    · rw [show closeStream mid (p :: t) = p :: closeStream mid t from by
        simp [closeStream, he]]
      rw [alookup, if_neg he, ih, alookup, if_neg he]

theorem alookup_closeStream_ne {k mid : Int} (l : List (Int × StreamSt)) (h : k ≠ mid) :
    alookup k (closeStream mid l) = alookup k l := by
  induction l with
  | nil => rfl
  | cons p t ih =>
    by_cases he : p.1 = mid
    · rw [show closeStream mid (p :: t) = (p.1, p.2.close) :: closeStream mid t from by
        simp [closeStream, he]]
      rw [alookup, if_neg (fun hk => h (by rw [← hk]; exact he)), ih,
        alookup, if_neg (fun hk => h (by rw [← hk]; exact he))]
    · rw [show closeStream mid (p :: t) = p :: closeStream mid t from by
        simp [closeStream, he]]
      rw [alookup, alookup]
      by_cases hk : p.1 = k
      · rw [if_pos hk, if_pos hk]
      · rw [if_neg hk, if_neg hk, ih]

theorem alookup_writeStream_self (mid : Int) (v : Json) (l : List (Int × StreamSt)) :
    alookup mid (writeStream mid v l) = (alookup mid l).map (fun s => s.write v) := by
  induction l with
  | nil => rfl
  | cons p t ih =>
    by_cases he : p.1 = mid
    · simp [writeStream, alookup, he]
    · rw [show writeStream mid v (p :: t) = p :: writeStream mid v t from by
        simp [writeStream, he]]
      rw [alookup, if_neg he, ih, alookup, if_neg he]

theorem alookup_writeStream_ne {k mid : Int} (v : Json) (l : List (Int × StreamSt))
    (h : k ≠ mid) : alookup k (writeStream mid v l) = alookup k l := by
  induction l with
  | nil => rfl
  | cons p t ih =>
    by_cases he : p.1 = mid
    · rw [show writeStream mid v (p :: t) = (p.1, p.2.write v) :: writeStream mid v t from by
        simp [writeStream, he]]
      rw [alookup, if_neg (fun hk => h (by rw [← hk]; exact he)), ih,
        alookup, if_neg (fun hk => h (by rw [← hk]; exact he))]
    · rw [show writeStream mid v (p :: t) = p :: writeStream mid v t from by
        simp [writeStream, he]]
      rw [alookup, alookup]
      by_cases hk : p.1 = k
      · rw [if_pos hk, if_pos hk]
      · rw [if_neg hk, if_neg hk, ih]

/-- The keys currently in the pending table. -/
def pendingKeys (st : ClientState) : List Int := st.pending.map Prod.fst

/-- How many times request `mid` was settled (resolved or rejected). -/
def settledCount (st : ClientState) (mid : Int) : Nat :=
  (st.settled.filter (fun p => p.1 = mid)).length

theorem filter_count_append (mid : Int) (l : List (Int × Settlement))
    (x : Int × Settlement) :
    ((l ++ [x]).filter (fun p => p.1 = mid)).length
      = (l.filter (fun p => p.1 = mid)).length + (if x.1 = mid then 1 else 0) := by
  rw [List.filter_append, List.length_append]
  by_cases hx : x.1 = mid <;> simp [List.filter, hx]

theorem count_zero_of_forall (mid : Int) (l : List (Int × Settlement))
    (h : ∀ p ∈ l, p.1 ≠ mid) : (l.filter (fun p => p.1 = mid)).length = 0 := by
  rw [List.length_eq_zero]
  exact List.filter_eq_nil_iff.mpr (fun p hp => by simpa using h p hp)

theorem count_pos_of_mem {l : List (Int × Settlement)} {p : Int × Settlement}
    (h : p ∈ l) : 1 ≤ (l.filter (fun q => q.1 = p.1)).length := by
  have : p ∈ l.filter (fun q => q.1 = p.1) := List.mem_filter.mpr ⟨h, by simp⟩
  exact List.length_pos.mpr (fun hn => by simp [hn] at this)

/-! ## The single-fire latch invariant. -/

/-- The pending table acts as a single-fire latch: every id settles at most
once, a pending id has never settled, armed timers belong to pending ids,
and a settled id's stream is closed. -/
structure Inv (st : ClientState) : Prop where
  settledOnce : ∀ mid : Int, settledCount st mid ≤ 1
  pendingNotSettled : ∀ mid ∈ pendingKeys st, settledCount st mid = 0
  pendingNodup : (pendingKeys st).Nodup
  pendingLe : ∀ mid ∈ pendingKeys st, mid ≤ st.messageIds
  settledLe : ∀ p ∈ st.settled, p.1 ≤ st.messageIds
  timersPending : ∀ mid ∈ st.timers, mid ∈ pendingKeys st
  settledClosed : ∀ p ∈ st.settled,
    ∃ s, alookup p.1 st.streams = some s ∧ s.closed = true
  pendingStream : ∀ mid ∈ pendingKeys st, ∃ s, alookup mid st.streams = some s

theorem inv_tcpInit : Inv tcpInit := by
  constructor <;> simp [tcpInit, pendingKeys, settledCount]

theorem inv_statuses {st : ClientState} (hInv : Inv st) (l : List (Int × Int)) :
    Inv { st with statuses := l } :=
  ⟨hInv.settledOnce, hInv.pendingNotSettled, hInv.pendingNodup, hInv.pendingLe,
   hInv.settledLe, hInv.timersPending, hInv.settledClosed, hInv.pendingStream⟩

theorem inv_errors {st : ClientState} (hInv : Inv st) (l : List RpcError) :
    Inv { st with errors := l } :=
  ⟨hInv.settledOnce, hInv.pendingNotSettled, hInv.pendingNodup, hInv.pendingLe,
   hInv.settledLe, hInv.timersPending, hInv.settledClosed, hInv.pendingStream⟩

theorem inv_isConnected {st : ClientState} (hInv : Inv st) (b : Bool) :
    Inv { st with isConnected := b } :=
  ⟨hInv.settledOnce, hInv.pendingNotSettled, hInv.pendingNodup, hInv.pendingLe,
   hInv.settledLe, hInv.timersPending, hInv.settledClosed, hInv.pendingStream⟩

theorem settle_inv {st : ClientState} (mid : Int) (x : Settlement)
    (hmem : mid ∈ pendingKeys st) (hInv : Inv st) :
    Inv { st with
      pending := aerase mid st.pending
      timers := st.timers.filter (fun t => t ≠ mid)
      streams := closeStream mid st.streams
      settled := st.settled ++ [(mid, x)] } := by
  constructor
  · intro k
    simp only [settledCount]
    rw [filter_count_append]
    have h1 := hInv.settledOnce k
    simp only [settledCount] at h1
    by_cases hk : mid = k
    · have h2 := hInv.pendingNotSettled k (hk ▸ hmem)
      simp only [settledCount] at h2
      rw [if_pos hk]
      omega
    · rw [if_neg hk]
      omega
  · intro k hk
    simp only [pendingKeys] at hk
    have hmk := mem_keys_aerase.mp hk
    simp only [settledCount]
    rw [filter_count_append]
    have h2 := hInv.pendingNotSettled k hmk.1
    simp only [settledCount] at h2
    rw [if_neg (fun he => hmk.2 he.symm)]
    omega
  · simp only [pendingKeys]
    rw [keys_aerase]
    exact hInv.pendingNodup.filter _
  · intro k hk
    simp only [pendingKeys] at hk
    have hmk := mem_keys_aerase.mp hk
    exact hInv.pendingLe k hmk.1
  · intro p hp
    rcases List.mem_append.mp hp with h | h
    · exact hInv.settledLe p h
    · rw [List.mem_singleton] at h
      subst h
      exact hInv.pendingLe mid hmem
  · intro k hk
    have hf := List.mem_filter.mp hk
    have hne : k ≠ mid := by simpa using hf.2
    simp only [pendingKeys]
    exact mem_keys_aerase.mpr ⟨hInv.timersPending k hf.1, hne⟩
  · intro p hp
    rcases List.mem_append.mp hp with h | h
    · obtain ⟨s, hs, hc⟩ := hInv.settledClosed p h
      by_cases he : p.1 = mid
      · rw [he, alookup_closeStream_self]
        rw [he] at hs
        rw [hs]
        exact ⟨s.close, rfl, rfl⟩
      · rw [alookup_closeStream_ne _ he]
        exact ⟨s, hs, hc⟩
    · rw [List.mem_singleton] at h
      subst h
      obtain ⟨s, hs⟩ := hInv.pendingStream mid hmem
      show ∃ s2, alookup mid (closeStream mid st.streams) = some s2 ∧ s2.closed = true
      rw [alookup_closeStream_self, hs]
      exact ⟨s.close, rfl, rfl⟩
  · intro k hk
    simp only [pendingKeys] at hk
    have hmk := mem_keys_aerase.mp hk
    obtain ⟨s, hs⟩ := hInv.pendingStream k hmk.1
    by_cases he : k = mid
    · rw [he, alookup_closeStream_self]
      rw [he] at hs
      rw [hs]
      exact ⟨s.close, rfl⟩
    · rw [alookup_closeStream_ne _ he]
      exact ⟨s, hs⟩

theorem rejectRequest_inv {st : ClientState} (mid : Int) (e : RpcError)
    (hmem : mid ∈ pendingKeys st) (hInv : Inv st) : Inv (rejectRequest st mid e) :=
  settle_inv mid (Settlement.rejected e) hmem hInv

theorem resolveRequest_inv {st : ClientState} (mid : Int) (v : Json)
    (hmem : mid ∈ pendingKeys st) (hInv : Inv st) : Inv (resolveRequest st mid v) :=
  settle_inv mid (Settlement.resolved v) hmem hInv

theorem writeStream_inv {st : ClientState} (hInv : Inv st) (mid : Int) (v : Json) :
    Inv { st with streams := writeStream mid v st.streams } := by
  constructor
  · exact hInv.settledOnce
  · exact hInv.pendingNotSettled
  · exact hInv.pendingNodup
  · exact hInv.pendingLe
  · exact hInv.settledLe
  · exact hInv.timersPending
  · intro p hp
    obtain ⟨s, hs, hc⟩ := hInv.settledClosed p hp
    by_cases he : p.1 = mid
    · rw [he, alookup_writeStream_self]
      rw [he] at hs
      rw [hs]
      exact ⟨s.write v, rfl, by rw [StreamSt.write_closed]; exact hc⟩
    · rw [alookup_writeStream_ne _ _ he]
      exact ⟨s, hs, hc⟩
  · intro k hk
    obtain ⟨s, hs⟩ := hInv.pendingStream k hk
    by_cases he : k = mid
    · rw [he, alookup_writeStream_self]
      rw [he] at hs
      rw [hs]
      exact ⟨s.write v, rfl⟩
    · rw [alookup_writeStream_ne _ _ he]
      exact ⟨s, hs⟩

theorem request_record_inv {st : ClientState} (hInv : Inv st) (route : String)
    (data : Json) (tms : Option Nat) :
    Inv { st with
      messageIds := st.messageIds + 1
      timers := if tms.isSome then st.timers ++ [st.messageIds + 1] else st.timers
      streams := aset (st.messageIds + 1) { values := [], closed := false } st.streams
      pending := aset (st.messageIds + 1) { type := route, timeoutMs := tms } st.pending
      sent := st.sent ++ [(st.messageIds + 1, route, data)] } := by
  have hfreshS : ∀ p ∈ st.settled, p.1 ≠ st.messageIds + 1 := by
    intro p hp he
    have := hInv.settledLe p hp
    omega
  constructor
  · exact hInv.settledOnce
  · intro k hk
    simp only [pendingKeys] at hk
    rcases mem_keys_aset.mp hk with hk | hk
    · subst hk
      exact count_zero_of_forall _ _ hfreshS
    · exact hInv.pendingNotSettled k hk.1
  · exact nodup_keys_aset hInv.pendingNodup
  · intro k hk
    simp only [pendingKeys] at hk
    rcases mem_keys_aset.mp hk with hk | hk
    · subst hk
      show st.messageIds + 1 ≤ st.messageIds + 1
      omega
    · have := hInv.pendingLe k hk.1
      show k ≤ st.messageIds + 1
      omega
  · intro p hp
    have := hInv.settledLe p hp
    show p.1 ≤ st.messageIds + 1
    omega
  · intro k hk
    by_cases ht : tms.isSome
    · rw [if_pos ht] at hk
      rcases List.mem_append.mp hk with hk | hk
      · have h1 := hInv.timersPending k hk
        have h2 : k ≠ st.messageIds + 1 := by
          have := hInv.pendingLe k h1
          omega
        simp only [pendingKeys]
        exact mem_keys_aset.mpr (Or.inr ⟨h1, h2⟩)
      · rw [List.mem_singleton] at hk
        subst hk
        simp only [pendingKeys]
        exact mem_keys_aset.mpr (Or.inl rfl)
    · rw [if_neg ht] at hk
      have h1 := hInv.timersPending k hk
      have h2 : k ≠ st.messageIds + 1 := by
        have := hInv.pendingLe k h1
        omega
      simp only [pendingKeys]
      exact mem_keys_aset.mpr (Or.inr ⟨h1, h2⟩)
  · intro p hp
    obtain ⟨s, hs, hc⟩ := hInv.settledClosed p hp
    rw [alookup_aset_ne _ _ (hfreshS p hp)]
    exact ⟨s, hs, hc⟩
  · intro k hk
    simp only [pendingKeys] at hk
    rcases mem_keys_aset.mp hk with hk | hk
    · subst hk
      exact ⟨_, alookup_aset_self _ _ _⟩
    · obtain ⟨s, hs⟩ := hInv.pendingStream k hk.1
      rw [alookup_aset_ne _ _ hk.2]
      exact ⟨s, hs⟩

/-! ## Event semantics: one client driven by the event loop. -/

/-- The events that mutate the client state: an application `request()` call,
an armed timer firing, an incoming `message`/`stream` envelope, the base
client's `disconnect` handler, and the TCP socket `close` handler. -/
inductive Ev where
  | req (route : String) (data : Json) (opts : Option (Option Nat))
  | fireTm (mid : Int)
  | msg (data : Json)
  | strm (data : Json)
  | disconnect
  | socketClose
  deriving DecidableEq

/-- One step of the event loop. -/
def step (st : ClientState) : Ev → ClientState
  | Ev.req route data opts =>
    match request st route data opts with
    | Except.ok p => p.1
    | Except.error _ => st
  | Ev.fireTm mid => fireTimeout st mid
  | Ev.msg data => onMessage st data
  | Ev.strm data => onStream st data
  | Ev.disconnect => onDisconnect st
  | Ev.socketClose => onClientClose st

/-- Run a sequence of events. -/
def run (st : ClientState) : List Ev → ClientState
  | [] => st
  | e :: es => run (step st e) es

theorem fold_reject_inv :
    ∀ (l : List (Int × PendingEntry)) (st : ClientState), Inv st →
    (∀ k ∈ l.map Prod.fst, k ∈ pendingKeys st) → (l.map Prod.fst).Nodup →
    Inv (l.foldl (fun acc p => rejectRequest acc p.1 (RpcError.connectionLost p.2.type)) st) ∧
    (∀ k, k ∈ pendingKeys
        (l.foldl (fun acc p => rejectRequest acc p.1 (RpcError.connectionLost p.2.type)) st)
      ↔ (k ∈ pendingKeys st ∧ k ∉ l.map Prod.fst)) := by
  intro l
  induction l with
  | nil =>
    intro st hInv _ _
    exact ⟨hInv, fun k => by simp⟩
  | cons p t ih =>
    intro st hInv hsub hnd
    simp only [List.foldl_cons]
    have hmem : p.1 ∈ pendingKeys st := hsub p.1 (by simp)
    have hInv1 : Inv (rejectRequest st p.1 (RpcError.connectionLost p.2.type)) :=
      rejectRequest_inv p.1 _ hmem hInv
    have hkeys1 : ∀ k, k ∈ pendingKeys (rejectRequest st p.1 (RpcError.connectionLost p.2.type))
        ↔ k ∈ pendingKeys st ∧ k ≠ p.1 := by
      intro k
      show k ∈ (aerase p.1 st.pending).map Prod.fst ↔ _
      exact mem_keys_aerase
    have hnd' : (p.1 :: t.map Prod.fst).Nodup := by simpa using hnd
    have hnd2 := List.nodup_cons.mp hnd'
    have hsub2 : ∀ k ∈ t.map Prod.fst,
        k ∈ pendingKeys (rejectRequest st p.1 (RpcError.connectionLost p.2.type)) := by
      intro k hk
      refine (hkeys1 k).mpr ⟨hsub k (by simp [hk]), ?_⟩
      intro he
      exact hnd2.1 (he ▸ hk)
    obtain ⟨hI, hC⟩ := ih _ hInv1 hsub2 hnd2.2
    refine ⟨hI, fun k => ?_⟩
    rw [hC k, hkeys1 k]
    constructor
    · rintro ⟨⟨h1, h2⟩, h3⟩
      exact ⟨h1, by simp [h2, h3]⟩
    · rintro ⟨h1, h2⟩
      simp only [List.map_cons, List.mem_cons, not_or] at h2
      exact ⟨⟨h1, h2.1⟩, h2.2⟩

theorem onDisconnect_inv {st : ClientState} (hInv : Inv st) : Inv (onDisconnect st) := by
  unfold onDisconnect
  have hInv1 : Inv { st with isConnected := false } := inv_isConnected hInv false
  obtain ⟨hI2, hC2⟩ := fold_reject_inv st.pending { st with isConnected := false } hInv1
    (fun k hk => hk) hInv.pendingNodup
  set st2 := st.pending.foldl
    (fun acc p => rejectRequest acc p.1 (RpcError.connectionLost p.2.type))
    { st with isConnected := false } with hst2
  have hempty : ∀ k, k ∉ pendingKeys st2 := by
    intro k hk
    have := (hC2 k).mp hk
    exact this.2 this.1
  constructor
  · exact hI2.settledOnce
  · intro k hk
    simp only [pendingKeys, List.map_nil] at hk
    simp at hk
  · simp [pendingKeys]
  · intro k hk
    simp only [pendingKeys, List.map_nil] at hk
    simp at hk
  · exact hI2.settledLe
  · intro k hk
    exact absurd (hI2.timersPending k hk) (hempty k)
  · exact hI2.settledClosed
  · intro k hk
    simp only [pendingKeys, List.map_nil] at hk
    simp at hk

theorem handleEndMatched_inv {st : ClientState} (hInv : Inv st) (r : IpcResp)
    (data : Json) : Inv (handleEndMatched st r data) := by
  unfold handleEndMatched
  cases hl : alookup r.id st.pending with
  | none => exact hInv
  | some m =>
    have hmem : r.id ∈ pendingKeys st := alookup_mem_keys hl
    have hInv1 : Inv { st with statuses := aset r.id r.status st.statuses } :=
      inv_statuses hInv _
    show Inv (if isResponseError r.status = true then
        handleEndError { st with statuses := aset r.id r.status st.statuses }
          r.id data (ipcErrorValidate r.data)
      else resolveRequest { st with statuses := aset r.id r.status st.statuses } r.id r.data)
    by_cases hre : isResponseError r.status = true
    · rw [if_pos hre]
      rcases ipcErrorValidate r.data with ⟨e1, e2⟩
      cases e1 with
      | some eb => exact rejectRequest_inv r.id _ hmem hInv1
      | none =>
        cases e2 with
        | some ee => exact rejectRequest_inv r.id _ hmem hInv1
        | none => exact rejectRequest_inv r.id _ hmem hInv1
    · rw [if_neg hre]
      exact resolveRequest_inv r.id _ hmem hInv1

theorem handleStreamMatched_inv {st : ClientState} (hInv : Inv st) (r : IpcStream) :
    Inv (handleStreamMatched st r) := by
  unfold handleStreamMatched
  cases hl : alookup r.id st.pending with
  | none => exact hInv
  | some m => exact writeStream_inv hInv r.id r.data

theorem step_inv {st : ClientState} (hInv : Inv st) : ∀ e : Ev, Inv (step st e) := by
  intro e
  cases e with
  | req route data opts =>
    show Inv (match request st route data opts with
      | Except.ok p => p.1
      | Except.error _ => st)
    unfold request
    by_cases hn : st.clientIsNull
    · rw [if_pos hn]
      exact hInv
    · rw [if_neg hn]
      exact request_record_inv hInv route data _
  | fireTm mid =>
    show Inv (fireTimeout st mid)
    unfold fireTimeout
    cases hl : alookup mid st.pending with
    | none => exact hInv
    | some m =>
      obtain ⟨mtype, mtms⟩ := m
      cases mtms with
      | none => exact hInv
      | some d =>
        exact rejectRequest_inv mid _ (alookup_mem_keys hl) hInv
  | msg data =>
    show Inv (onMessage st data)
    unfold onMessage handleEnd
    cases hv : (ipcResponseValidate data).1 with
    | none => exact inv_errors hInv _
    | some r => exact handleEndMatched_inv hInv r data
  | strm data =>
    show Inv (onStream st data)
    unfold onStream handleStream
    cases hv : (ipcStreamValidate data).1 with
    | none => exact inv_errors hInv _
    | some r => exact handleStreamMatched_inv hInv r
  | disconnect => exact onDisconnect_inv hInv
  | socketClose => exact inv_isConnected hInv false

theorem run_inv {st : ClientState} (hInv : Inv st) :
    ∀ tr : List Ev, Inv (run st tr) := by
  intro tr
  induction tr generalizing st with
  | nil => exact hInv
  | cons e es ih => exact ih (step_inv hInv e)

/-! ## Claim theorems for the multiplexer. -/

/-- C4: along every event trace from a fresh TCP client, each request id is
settled (resolved or rejected) and removed from the table at most once, by
whichever of resolve, reject, timeout-reject, or disconnect-reject fires
first; once settled, the id is no longer in the table, its timer is no longer
armed, and its stream is closed. -/
theorem settlement_single_fire (tr : List Ev) :
    (∀ mid : Int, settledCount (run tcpInit tr) mid ≤ 1) ∧
    (∀ p ∈ (run tcpInit tr).settled,
      p.1 ∉ pendingKeys (run tcpInit tr) ∧
      p.1 ∉ (run tcpInit tr).timers ∧
      ∃ s, alookup p.1 (run tcpInit tr).streams = some s ∧ s.closed = true) := by
  have hInv : Inv (run tcpInit tr) := run_inv inv_tcpInit tr
  refine ⟨hInv.settledOnce, fun p hp => ⟨?_, ?_, hInv.settledClosed p hp⟩⟩
  · intro hmem
    have h0 := hInv.pendingNotSettled p.1 hmem
    have h1 := count_pos_of_mem hp
    simp only [settledCount] at h0
    omega
  · intro htm
    have hmem := hInv.timersPending p.1 htm
    have h0 := hInv.pendingNotSettled p.1 hmem
    have h1 := count_pos_of_mem hp
    simp only [settledCount] at h0
    omega

/-- A demonstration trace: a request with a timeout, its response, a stale
timer fire, then a disconnect. -/
def c4Trace : List Ev :=
  [Ev.req ("getAccount") Json.null (some (some 10)),
   Ev.msg (Json.obj [(("id"), Json.num 1), (("status"), Json.num 200),
                     (("data"), Json.num 5)]),
   Ev.fireTm 1,
   Ev.disconnect]

/-- Witness for `settlement_single_fire` on a concrete trace. -/
theorem settlement_single_fire_witness :
    settledCount (run tcpInit c4Trace) 1 ≤ 1 ∧
    (1, Settlement.resolved (Json.num 5)) ∈ (run tcpInit c4Trace).settled ∧
    (1 : Int) ∉ pendingKeys (run tcpInit c4Trace) :=
  ⟨(settlement_single_fire c4Trace).1 1, by decide,
   ((settlement_single_fire c4Trace).2 (1, Settlement.resolved (Json.num 5)) (by decide)).1⟩

/-- C5: a timer firing for a pending request whose timer was armed with
duration `d` rejects it with a timeout error carrying the configured
duration and the original route, removes it from the table, cancels the
timer and closes its stream; a timer firing for an id that already settled
(no longer pending) is a no-op: it neither rejects nor raises. -/
theorem timeout_fire_semantics (st : ClientState) (mid : Int) (e : PendingEntry) (d : Nat) :
    (alookup mid st.pending = some e → e.timeoutMs = some d →
      fireTimeout st mid = rejectRequest st mid (RpcError.requestTimeout d e.type) ∧
      (fireTimeout st mid).settled
        = st.settled ++ [(mid, Settlement.rejected (RpcError.requestTimeout d e.type))] ∧
      (fireTimeout st mid).pending = aerase mid st.pending ∧
      mid ∉ (fireTimeout st mid).timers ∧
      (fireTimeout st mid).streams = closeStream mid st.streams) ∧
    (alookup mid st.pending = none → fireTimeout st mid = st) := by
  constructor
  · intro h1 h2
    obtain ⟨etype, etms⟩ := e
    have h2b : etms = some d := h2
    subst h2b
    have hft : fireTimeout st mid
        = rejectRequest st mid (RpcError.requestTimeout d etype) := by
      unfold fireTimeout
      rw [h1]
    refine ⟨hft, ?_, ?_, ?_, ?_⟩
    · rw [hft]
      rfl
    · rw [hft]
      rfl
    · rw [hft]
      intro hm
      have hx := List.mem_filter.mp hm
      simp at hx
    · rw [hft]
      rfl
  · intro h1
    unfold fireTimeout
    rw [h1]

/-- A client with one pending request whose timer is armed at 5000ms. -/
def c5State : ClientState :=
  { tcpInit with messageIds := 1
                 pending := [(1, { type := ("getStatus"), timeoutMs := some 5000 })]
                 timers := [1]
                 streams := [(1, { values := [], closed := false })] }

/-- Witness for `timeout_fire_semantics`: the armed fire and the stale fire. -/
theorem timeout_fire_semantics_witness :
    fireTimeout c5State 1
      = rejectRequest c5State 1 (RpcError.requestTimeout 5000 ("getStatus")) ∧
    fireTimeout { c5State with pending := [] } 1 = { c5State with pending := [] } :=
  ⟨((timeout_fire_semantics c5State 1
      { type := ("getStatus"), timeoutMs := some 5000 } 5000).1 (by decide) (by decide)).1,
   (timeout_fire_semantics { c5State with pending := [] } 1
      { type := ("getStatus"), timeoutMs := some 5000 } 5000).2 (by decide)⟩

/-- C6: a well-formed stream or message envelope whose id has no pending
record is dropped silently — the state is entirely unchanged: no error is
emitted, no response settles, and no stream receives a value. -/
theorem unmatched_envelope_dropped (st : ClientState) (data : Json)
    (r1 : IpcStream) (r2 : IpcResp) :
    ((ipcStreamValidate data).1 = some r1 → alookup r1.id st.pending = none →
      onStream st data = st) ∧
    ((ipcResponseValidate data).1 = some r2 → alookup r2.id st.pending = none →
      onMessage st data = st) := by
  constructor
  · intro hv hl
    unfold onStream handleStream
    rw [hv]
    show handleStreamMatched st r1 = st
    unfold handleStreamMatched
    rw [hl]
  · intro hv hl
    unfold onMessage handleEnd
    rw [hv]
    show handleEndMatched st r2 data = st
    unfold handleEndMatched
    rw [hl]

/-- Witness for `unmatched_envelope_dropped` with unknown id 9. -/
theorem unmatched_envelope_dropped_witness :
    onStream tcpInit (Json.obj [(("id"), Json.num 9), (("data"), Json.num 3)]) = tcpInit ∧
    onMessage tcpInit (Json.obj [(("id"), Json.num 9), (("status"), Json.num 200),
      (("data"), Json.num 3)]) = tcpInit :=
  ⟨(unmatched_envelope_dropped tcpInit
      (Json.obj [(("id"), Json.num 9), (("data"), Json.num 3)])
      { id := 9, data := Json.num 3 } { id := 9, status := 200, data := Json.num 3 }).1
      (by decide) (by decide),
   (unmatched_envelope_dropped tcpInit
      (Json.obj [(("id"), Json.num 9), (("status"), Json.num 200), (("data"), Json.num 3)])
      { id := 9, data := Json.num 3 } { id := 9, status := 200, data := Json.num 3 }).2
      (by decide) (by decide)⟩

/-- C7: an incoming message envelope matched to a pending request settles it
as one of the four branches: on a failure status with a decodable error body
it rejects with the structured `{code, message, stack}` error; on a failure
status whose error body fails to decode it rejects with that decode error;
on a failure status where the validator yields neither it rejects with the
raw envelope; on a success status it resolves with the payload data.  Every
branch removes the request from the table and closes its stream. -/
theorem matched_response_settlement (st : ClientState) (data : Json) (r : IpcResp)
    (m : PendingEntry) (hv : (ipcResponseValidate data).1 = some r)
    (hl : alookup r.id st.pending = some m) :
    (isResponseError r.status = true →
      (∀ eb x2, ipcErrorValidate r.data = (some eb, x2) →
        (onMessage st data).settled = st.settled ++
          [(r.id, Settlement.rejected (RpcError.requestError eb.code eb.message eb.stack))]) ∧
      (∀ ee, ipcErrorValidate r.data = (none, some ee) →
        (onMessage st data).settled = st.settled ++ [(r.id, Settlement.rejected ee)]) ∧
      (ipcErrorValidate r.data = (none, none) →
        (onMessage st data).settled = st.settled ++
          [(r.id, Settlement.rejected (RpcError.raw data))])) ∧
    (isResponseError r.status = false →
      (onMessage st data).settled = st.settled ++ [(r.id, Settlement.resolved r.data)]) ∧
    (onMessage st data).pending = aerase r.id st.pending ∧
    (onMessage st data).streams = closeStream r.id st.streams := by
  have hom : onMessage st data = handleEndMatched st r data := by
    unfold onMessage handleEnd
    rw [hv]
  have hm2 : handleEndMatched st r data
      = (if isResponseError r.status = true then
          handleEndError { st with statuses := aset r.id r.status st.statuses }
            r.id data (ipcErrorValidate r.data)
        else resolveRequest { st with statuses := aset r.id r.status st.statuses }
            r.id r.data) := by
    unfold handleEndMatched
    rw [hl]
  rw [hom, hm2]
  refine ⟨?_, ?_, ?_, ?_⟩
  · intro hre
    rw [if_pos hre]
    refine ⟨?_, ?_, ?_⟩
    · intro eb x2 hev
      rw [hev]
      rfl
    · intro ee hev
      rw [hev]
      rfl
    · intro hev
      rw [hev]
      rfl
  · intro hre
    rw [if_neg (by simp [hre])]
    rfl
  · by_cases hre : isResponseError r.status = true
    · rw [if_pos hre]
      rcases ipcErrorValidate r.data with ⟨e1, e2⟩
      cases e1
      · cases e2
        · rfl
        · rfl
      · rfl
    · rw [if_neg hre]
      rfl
  · by_cases hre : isResponseError r.status = true
    · rw [if_pos hre]
      rcases ipcErrorValidate r.data with ⟨e1, e2⟩
      cases e1
      · cases e2
        · rfl
        · rfl
      · rfl
    · rw [if_neg hre]
      rfl

/-- A client with one pending request with id 1. -/
def c7State : ClientState :=
  { tcpInit with messageIds := 1
                 pending := [(1, { type := ("getBlock"), timeoutMs := none })]
                 streams := [(1, { values := [], closed := false })] }

/-- A failure envelope for id 1 with a decodable error body. -/
def c7Envelope : Json :=
  Json.obj [(("id"), Json.num 1), (("status"), Json.num 500),
            (("data"), Json.obj [(("code"), Json.str ("ERR")),
                                 (("message"), Json.str ("boom"))])]

/-- Witness for `matched_response_settlement` on a concrete failure envelope. -/
theorem matched_response_settlement_witness :
    (onMessage c7State c7Envelope).settled
      = [(1, Settlement.rejected (RpcError.requestError ("ERR") ("boom") none))] := by
  have h := matched_response_settlement c7State c7Envelope
    { id := 1, status := 500,
      data := Json.obj [(("code"), Json.str ("ERR")), (("message"), Json.str ("boom"))] }
    { type := ("getBlock"), timeoutMs := none } (by decide) (by decide)
  have h2 := (h.1 (by decide)).1 { code := ("ERR"), message := ("boom"), stack := none }
    none (by decide)
  simpa using h2

/-- C2 (code bug): a fresh, never-connected TCP client accepts `request()`.
The `Assert.isNotNull(this.client, 'Connect first using connect()')` guard
cannot fire because the TCP constructor creates the socket eagerly, so a
pending record is created and a send is attempted while disconnected rather
than failing fast with a not-connected error. -/
theorem request_while_disconnected_accepted :
    tcpInit.isConnected = false ∧
    request tcpInit ("getFunds") Json.null none =
      Except.ok ({ tcpInit with
        messageIds := 1
        streams := [(1, { values := [], closed := false })]
        pending := [(1, { type := ("getFunds"), timeoutMs := none })]
        sent := [(1, ("getFunds"), Json.null)] }, 1) :=
  ⟨rfl, rfl⟩

/-- A connected TCP client with two pending requests. -/
def c1State : ClientState :=
  { tcpInit with isConnected := true
                 messageIds := 2
                 pending := [(1, { type := ("getBlock"), timeoutMs := none }),
                             (2, { type := ("getFunds"), timeoutMs := none })]
                 streams := [(1, { values := [], closed := false }),
                             (2, { values := [], closed := false })] }

/-- C1 (code bug): the TCP socket close handler (`onClientClose`) only
clears the connected flag and unsubscribes the data handlers.  With two
requests pending, no request is rejected with ConnectionLost, the table is
not cleared, no close event is emitted — and a subsequent `request()` is
still accepted rather than failing with NotConnected. -/
theorem tcp_close_leaves_pending :
    (onClientClose c1State).pending = c1State.pending ∧
    (onClientClose c1State).settled = [] ∧
    (onClientClose c1State).closeEmits = 0 ∧
    (onClientClose c1State).isConnected = false ∧
    (request (onClientClose c1State) ("getStatus") Json.null none).isOk = true :=
  ⟨rfl, rfl, rfl, rfl, rfl⟩

/-! ## Connect-time error classification (`IronfishTcpClient.connect`,
`IronfishRpcClient.tryConnect`). -/

/-- A JavaScript error surfaced by the socket, identified by its `code`
property (`ErrorUtils` is not under `src/`; the checks are modelled from the
spec's taxonomy of connection failures). -/
structure JsErr where
  code : String
  deriving DecidableEq

/-- Modelled from the spec: `ErrorUtils.isConnectRefusedError`. -/
def isConnectRefusedError (e : JsErr) : Bool := e.code = ("ECONNREFUSED")

/-- Modelled from the spec: `ErrorUtils.isNoEntityError` (ENOENT, e.g. a
nonexistent local socket path). -/
def isNoEntityError (e : JsErr) : Bool := e.code = ("ENOENT")

/-- What the socket reports to the `connect`/`error` handlers. -/
inductive SocketOutcome where
  | connected
  | errored (e : JsErr)
  deriving DecidableEq

/-- A connect-time rejection: the named `ConnectionRefusedError`, or the raw
socket error passed through unchanged. -/
inductive ConnectErr where
  | connectionRefused
  | other (e : JsErr)
  deriving DecidableEq

/-- Modelled from the spec: `e instanceof ConnectionError` —
`ConnectionRefusedError` is a `ConnectionError`; a raw socket error is not. -/
def isConnectionError : ConnectErr → Bool
  | ConnectErr.connectionRefused => true
  | ConnectErr.other _ => false

/-- `IronfishTcpClient.connect`: resolve on the socket's `connect` event; on
its `error` event classify ECONNREFUSED and ENOENT as
`ConnectionRefusedError` and reject any other error unchanged. -/
def connect : SocketOutcome → Except ConnectErr Unit
  | SocketOutcome.connected => Except.ok ()
  | SocketOutcome.errored e =>
    if isConnectRefusedError e then Except.error ConnectErr.connectionRefused
    else if isNoEntityError e then Except.error ConnectErr.connectionRefused
    else Except.error (ConnectErr.other e)

/-- `IronfishRpcClient.tryConnect`: `connect({retryConnect: false})`, mapping
success to `true`, a `ConnectionError` rejection to `false`, and rethrowing
any other rejection. -/
def tryConnect (o : SocketOutcome) : Except ConnectErr Bool :=
  match connect o with
  | Except.ok _ => Except.ok true
  | Except.error e => if isConnectionError e then Except.ok false else Except.error e

/-- C8: a refused connection makes `connect()` reject with the distinguished
`ConnectionRefusedError` and `tryConnect()` return false; `tryConnect()`
returns true exactly when `connect()` succeeds; and a connect-time error
that is not a `ConnectionError` is propagated unchanged by `tryConnect()`. -/
theorem connect_refused_classification (o : SocketOutcome) :
    (∀ e, o = SocketOutcome.errored e → isConnectRefusedError e = true →
      connect o = Except.error ConnectErr.connectionRefused ∧
      tryConnect o = Except.ok false) ∧
    (tryConnect o = Except.ok true ↔ connect o = Except.ok ()) ∧
    (∀ err, connect o = Except.error err → isConnectionError err = false →
      tryConnect o = Except.error err) := by
  refine ⟨?_, ?_, ?_⟩
  · rintro e rfl hr
    have hc : connect (SocketOutcome.errored e)
        = Except.error ConnectErr.connectionRefused := by
      show (if isConnectRefusedError e = true then
          Except.error ConnectErr.connectionRefused
        else if isNoEntityError e = true then Except.error ConnectErr.connectionRefused
        else Except.error (ConnectErr.other e)) = Except.error ConnectErr.connectionRefused
      rw [if_pos hr]
    refine ⟨hc, ?_⟩
    unfold tryConnect
    rw [hc]
    rfl
  · constructor
    · intro h
      cases hc : connect o with
      | ok u => cases u; rfl
      | error e =>
        unfold tryConnect at h
        rw [hc] at h
        have h2 : (if isConnectionError e = true then Except.ok false
            else Except.error e) = (Except.ok true : Except ConnectErr Bool) := h
        by_cases hce : isConnectionError e = true
        · rw [if_pos hce] at h2
          exact absurd h2 (by simp)
        · rw [if_neg hce] at h2
          exact absurd h2 (by simp)
    · intro h
      unfold tryConnect
      rw [h]
  · intro err hc hce
    unfold tryConnect
    rw [hc]
    show (if isConnectionError err = true then Except.ok false
      else Except.error err) = Except.error err
    rw [if_neg (by simp [hce])]

/-- Witness for `connect_refused_classification` at ECONNREFUSED. -/
theorem connect_refused_classification_witness :
    connect (SocketOutcome.errored { code := ("ECONNREFUSED") })
      = Except.error ConnectErr.connectionRefused ∧
    tryConnect (SocketOutcome.errored { code := ("ECONNREFUSED") })
      = Except.ok false :=
  (connect_refused_classification
    (SocketOutcome.errored { code := ("ECONNREFUSED") })).1
    { code := ("ECONNREFUSED") } rfl (by decide)

/-- C10: the connect-time classifier treats a no-such-entity (ENOENT) error
exactly like a refused connection — `connect()` rejects with
`ConnectionRefusedError` and `tryConnect()` returns false — while any error
that is neither ECONNREFUSED nor ENOENT is propagated unchanged. -/
theorem connect_enoent_classification (e : JsErr) :
    (isNoEntityError e = true →
      connect (SocketOutcome.errored e) = Except.error ConnectErr.connectionRefused ∧
      tryConnect (SocketOutcome.errored e) = Except.ok false) ∧
    (isConnectRefusedError e = false → isNoEntityError e = false →
      connect (SocketOutcome.errored e) = Except.error (ConnectErr.other e) ∧
      tryConnect (SocketOutcome.errored e) = Except.error (ConnectErr.other e)) := by
  constructor
  · intro hne
    have hc : connect (SocketOutcome.errored e)
        = Except.error ConnectErr.connectionRefused := by
      show (if isConnectRefusedError e = true then
          Except.error ConnectErr.connectionRefused
        else if isNoEntityError e = true then Except.error ConnectErr.connectionRefused
        else Except.error (ConnectErr.other e)) = Except.error ConnectErr.connectionRefused
      by_cases hr : isConnectRefusedError e = true
      · rw [if_pos hr]
      · rw [if_neg hr, if_pos hne]
    refine ⟨hc, ?_⟩
    unfold tryConnect
    rw [hc]
    rfl
  · intro hr hne
    have hc : connect (SocketOutcome.errored e)
        = Except.error (ConnectErr.other e) := by
      show (if isConnectRefusedError e = true then
          Except.error ConnectErr.connectionRefused
        else if isNoEntityError e = true then Except.error ConnectErr.connectionRefused
        else Except.error (ConnectErr.other e)) = Except.error (ConnectErr.other e)
      rw [if_neg (by simp [hr]), if_neg (by simp [hne])]
    refine ⟨hc, ?_⟩
    unfold tryConnect
    rw [hc]
    rfl

/-- Witness for `connect_enoent_classification` at ENOENT and at a generic
socket error. -/
theorem connect_enoent_classification_witness :
    (connect (SocketOutcome.errored { code := ("ENOENT") })
      = Except.error ConnectErr.connectionRefused ∧
     tryConnect (SocketOutcome.errored { code := ("ENOENT") }) = Except.ok false) ∧
    connect (SocketOutcome.errored { code := ("ECONNRESET") })
      = Except.error (ConnectErr.other { code := ("ECONNRESET") }) :=
  ⟨(connect_enoent_classification { code := ("ENOENT") }).1 (by decide),
   ((connect_enoent_classification { code := ("ECONNRESET") }).2
      (by decide) (by decide)).1⟩

end Ironfish
